import Mathlib

/-!
Shallow embedding of `include/lil/Str.hpp` (with `detail/IArr.hpp` and `Interval.hpp`).

`Str<SIZE>` owns `char _data[SIZE]`.  The storage is modelled as a `List Nat` of
`SIZE` bytes (each below 256); the template argument `SIZE` is an explicit parameter.

Conventions of the embedding

* `size_t` is the 64-bit unsigned type of the LP64 ABIs: every `size_t` expression of
  the source is reduced modulo `2 ^ 64` where the source computes it.
* `uint8_t` / `int8_t` parameters narrow their argument modulo `2 ^ 8`.
* the storage holds the object representation of each `char`, a byte `0 .. 255`.
* plain `char` is a signed 8-bit type, as in the x86-64 System V ABI (its signedness is
  implementation-defined): where a `char` is converted to `size_t` the byte is
  sign-extended.  The only place where a `char` is read as a number is `available()`;
  a byte below 128 is read as itself.
* an access outside an array, and a loop that can only leave through such an access,
  is undefined behaviour: the operation yields `none`.
* `memmove` / `memcpy` are the C library functions, modelled after the C standard.
-/

namespace lil

/-! ## Machine integers -/

/-- Number of values of `size_t` (64 bit). -/
def SIZE_T_RANGE : Nat := 2 ^ 64

/-- Unsigned `size_t` addition. -/
def addSz (a b : Nat) : Nat := (a + b) % SIZE_T_RANGE

/-- Unsigned `size_t` subtraction `a - b` (wraps below zero). -/
def subSz (a b : Nat) : Nat := (a + (SIZE_T_RANGE - b % SIZE_T_RANGE)) % SIZE_T_RANGE

/-- Unary minus on a `size_t`. -/
def negSz (a : Nat) : Nat := subSz 0 a

/-- Conversion of an unsigned value to `uint8_t`. -/
def to_uint8 (x : Nat) : Nat := x % 256

/-- Conversion of an unsigned value to `int8_t` (two's complement). -/
def to_int8 (x : Nat) : Int := if x % 256 < 128 then ((x % 256 : Nat) : Int) else ((x % 256 : Nat) : Int) - 256

/-- Conversion of a signed integer to `size_t`. -/
def int_to_size_t (x : Int) : Nat := (x % (SIZE_T_RANGE : Int)).toNat

/-- Conversion to `size_t` of a plain `char` whose byte is `c`: the value of the signed
`char` (`c` for `c < 128`, `c - 256` above) is converted modulo `2 ^ 64`, so a byte
`c >= 128` becomes `2 ^ 64 - 256 + c`. -/
def char_to_size_t (c : Nat) : Nat := int_to_size_t (to_int8 c)

/-! ## Interval.hpp: minimum / maximum -/

/-- Source: `return lhs < rhs ? lhs : rhs;` -/
def minimum {T : Type} [LT T] [DecidableRel (fun a b : T => a < b)] (lhs rhs : T) : T :=
  if lhs < rhs then lhs else rhs

/-- Source: `return lhs > rhs ? lhs : rhs;` -/
def maximum {T : Type} [LT T] [DecidableRel (fun a b : T => a < b)] (lhs rhs : T) : T :=
  if lhs > rhs then lhs else rhs

/-! ## Memory -/

/-- Read of `a[i]`; outside the array it is undefined. -/
def memRead (a : List Nat) (i : Nat) : Option Nat := a[i]?

/-- Write `a[i] = v`; outside the array it is undefined. -/
def memWrite (a : List Nat) (i v : Nat) : Option (List Nat) :=
  if i < a.length then some (a.set i v) else none

/-- The C call `memmove(&a[dst], &a[src], n)` inside one array: the `n` bytes are copied as if
through a temporary, so the regions may overlap.  Both regions must lie in the array. -/
def memmove (a : List Nat) (dst src n : Nat) : Option (List Nat) :=
  if src + n ≤ a.length ∧ dst + n ≤ a.length then
    some (a.take dst ++ (a.drop src).take n ++ a.drop (dst + n))
  else none

/-- The C call `memcpy(&a[dst], str, n)` from a separate object `str`: the `n` bytes must be
readable in `str` and writable in `a`. -/
def memcpy (a : List Nat) (dst : Nat) (str : List Nat) (n : Nat) : Option (List Nat) :=
  if n ≤ str.length ∧ dst + n ≤ a.length then
    some (a.take dst ++ str.take n ++ a.drop (dst + n))
  else none

namespace Str

/-! ## Str: size bookkeeping -/

/-- Source: `MAX_CHARS = SIZE - sizeof('\0')`, with `static_assert(SIZE >= 1)`. -/
def MAX_CHARS (SIZE : Nat) : Nat := SIZE - 1

/-- Source: `max_size()`. -/
def max_size (SIZE : Nat) : Nat := MAX_CHARS SIZE

/-- Source: `capacity()`. -/
def capacity (SIZE : Nat) : Nat := MAX_CHARS SIZE

/-- Source: `available()`: `return _data[MAX_CHARS];`, a plain `char` converted to the
return type `size_t`. -/
def available (SIZE : Nat) (d : List Nat) : Nat := char_to_size_t (d.getD (MAX_CHARS SIZE) 0)

/-- Source: `size()`: `return max_size() - available();` in `size_t`. -/
def size (SIZE : Nat) (d : List Nat) : Nat := subSz (max_size SIZE) (available SIZE d)

/-- Source: `full()`: `size() == max_size()`. -/
def full (SIZE : Nat) (d : List Nat) : Bool := size SIZE d == max_size SIZE

/-- Source: `IArr::empty()`: `size() == 0`. -/
def empty (SIZE : Nat) (d : List Nat) : Bool := size SIZE d == 0

/-- Source: `set_size_unsafe(uint8_t sz)`:
`_data[MAX_CHARS] = MAX_CHARS - sz; _data[size()] = '\0';`.  The argument is narrowed
to `uint8_t` at the call. -/
def set_size_unsafe (SIZE : Nat) (sz : Nat) (d : List Nat) : Option (List Nat) :=
  (memWrite d (MAX_CHARS SIZE) (subSz (MAX_CHARS SIZE) (to_uint8 sz) % 256)).bind fun d1 =>
  memWrite d1 (size SIZE d1) 0

/-- Source: `modify_size(int8_t diff)`: `set_size_unsafe(size() + diff);`. -/
def modify_size (SIZE : Nat) (diff : Int) (d : List Nat) : Option (List Nat) :=
  set_size_unsafe SIZE (addSz (size SIZE d) (int_to_size_t diff)) d

/-- Source: `push_back(const char c)`: `_data[size()] = c; modify_size(+1);`. -/
def push_back (SIZE : Nat) (c : Nat) (d : List Nat) : Option (List Nat) :=
  (memWrite d (size SIZE d) c).bind fun d1 => modify_size SIZE 1 d1

/-- Source: `pop_back()`: `_data[size() - 1] = '\0'; modify_size(-1);`. -/
def pop_back (SIZE : Nat) (d : List Nat) : Option (List Nat) :=
  (memWrite d (subSz (size SIZE d) 1) 0).bind fun d1 => modify_size SIZE (-1) d1

/-- Source: `clear()`: `set_size_unsafe(0);`. -/
def clear (SIZE : Nat) (d : List Nat) : Option (List Nat) := set_size_unsafe SIZE 0 d

/-- The logical content: the bytes at positions `[0, size())`. -/
def content (SIZE : Nat) (d : List Nat) : List Nat := d.take (size SIZE d)

/-! ## Str: scanning helpers -/

/-- Loop of `len`: `for (; (length < n) && (str[length] != '\0'); ++length) {}`.
The first argument counts the remaining `n - length`. -/
def len_loop (str : List Nat) : Nat → Nat → Option Nat
  | 0, length => some length
  | r + 1, length =>
    (memRead str length).bind fun c =>
      if c ≠ 0 then len_loop str r (length + 1) else some length

/-- Source: `len(const char* str, size_t n)`. -/
def len (str : List Nat) (n : Nat) : Option Nat := len_loop str n 0

/-- First loop of `cpy`: `for (; (i < n) && (src[i] != '\0'); ++i) dst[i] = src[i];`.
The first argument counts the remaining `n - i`; the final `i` is returned. -/
def cpy_copy (src : List Nat) : Nat → Nat → List Nat → Option (Nat × List Nat)
  | 0, i, dst => some (i, dst)
  | r + 1, i, dst =>
    (memRead src i).bind fun c =>
      if c ≠ 0 then (memWrite dst i c).bind (cpy_copy src r (i + 1)) else some (i, dst)

/-- Second loop of `cpy`: `for (; i < n; ++i) dst[i] = '\0';`. -/
def cpy_pad : Nat → Nat → List Nat → Option (List Nat)
  | 0, _, dst => some dst
  | r + 1, i, dst => (memWrite dst i 0).bind (cpy_pad r (i + 1))

/-- Source: `cpy(char* dst, const char* src, size_t n)`; ends with `dst[n - 1] = '\0'`. -/
def cpy (dst src : List Nat) (n : Nat) : Option (List Nat) :=
  (cpy_copy src n 0 dst).bind fun r =>
  (cpy_pad (n - r.1) r.1 r.2).bind fun d2 =>
  memWrite d2 (subSz n 1) 0

/-! ## Str: constructors

A constructor starts from indeterminate storage `garbage` (`SIZE` arbitrary bytes),
except the literal one, whose member initialiser `_data{}` zeroes the storage. -/

/-- Source: `Str()`: `clear();`. -/
def ctor_default (SIZE : Nat) (garbage : List Nat) : Option (List Nat) := clear SIZE garbage

/-- Source: `Str(const char* str, size_t sz)`. -/
def ctor (SIZE : Nat) (garbage : List Nat) (str : List Nat) (sz : Nat) : Option (List Nat) :=
  (len str sz).bind fun input_size =>
  let truncated_size := if input_size < MAX_CHARS SIZE then input_size else MAX_CHARS SIZE
  (memcpy garbage 0 str truncated_size).bind fun d1 =>
  set_size_unsafe SIZE truncated_size d1

/-- Source: `Str(const char* str)`, the default argument `sz = MAX_CHARS`. -/
def ctor_cstr (SIZE : Nat) (garbage : List Nat) (str : List Nat) : Option (List Nat) :=
  ctor SIZE garbage str (MAX_CHARS SIZE)

/-- Source: `Str(const char (&literal)[SIZE], AtCompileTime)`: `_data{}` and
`cpy(_data, literal, SIZE)`. -/
def ctor_literal (SIZE : Nat) (literal : List Nat) : Option (List Nat) :=
  cpy (List.replicate SIZE 0) literal SIZE

/-- Source: `str_literal(literal)`. -/
def str_literal (SIZE : Nat) (literal : List Nat) : Option (List Nat) :=
  ctor_literal SIZE literal

/-- Source: `Str(const TStr& other)`: `Str(other.c_str(), other.size())`, here for
`other` a `Str<OSIZE>`. -/
def ctor_from (SIZE : Nat) (garbage : List Nat) (OSIZE : Nat) (other : List Nat) :
    Option (List Nat) :=
  ctor SIZE garbage other (size OSIZE other)

/-! ## Str: insert -/

/-- First loop of the fill insert:
`for (size_t i = truncated_size; i >= (index + count); --i) _data[i] = _data[i - count];`
with `bound` the value of `index + count`.  When the body has run at `i = 0` the
decrement wraps to `SIZE_MAX`, the condition still holds and the next body accesses
`_data[SIZE_MAX]`, outside the storage. -/
def insert_shift (count bound : Nat) : Nat → List Nat → Option (List Nat)
  | 0, d => if 0 < bound then some d else none
  | i + 1, d =>
    if i + 1 < bound then some d
    else
      (memRead d (subSz (i + 1) count)).bind fun v =>
      (memWrite d (i + 1) v).bind (insert_shift count bound i)

/-- Second loop of the fill insert:
`for (size_t i = 0; (i < count) && ((index + i) < MAX_CHARS); ++i) _data[index + i] = fill;`.
The first argument counts the remaining `count - i`. -/
def insert_fill (SIZE index fill : Nat) : Nat → Nat → List Nat → Option (List Nat)
  | 0, _, d => some d
  | r + 1, i, d =>
    if addSz index i < MAX_CHARS SIZE then
      (memWrite d (addSz index i) fill).bind (insert_fill SIZE index fill r (i + 1))
    else some d

/-- Source: `insert(size_t index, size_t count, char fill)`. -/
def insert (SIZE : Nat) (index count fill : Nat) (d : List Nat) : Option (List Nat) :=
  let appended_size := addSz (size SIZE d) count
  let truncated_size := if appended_size < MAX_CHARS SIZE then appended_size else MAX_CHARS SIZE
  (insert_shift count (addSz index count) truncated_size d).bind fun d1 =>
  (insert_fill SIZE index fill count 0 d1).bind fun d2 =>
  set_size_unsafe SIZE truncated_size d2

/-- Source: `insert(size_t index, const char* str, size_t count)`. -/
def insert_n (SIZE : Nat) (index : Nat) (str : List Nat) (count : Nat) (d : List Nat) :
    Option (List Nat) :=
  let insertion_point := minimum index (size SIZE d)
  let insertion_size := minimum count (subSz (MAX_CHARS SIZE) insertion_point)
  let move_size := subSz (size SIZE d) insertion_point
  let move_size :=
    if addSz move_size insertion_size > MAX_CHARS SIZE then subSz move_size insertion_size
    else move_size
  (memmove d (addSz insertion_point insertion_size) insertion_point move_size).bind fun d1 =>
  (memcpy d1 insertion_point str insertion_size).bind fun d2 =>
  let appended_size := minimum (addSz (size SIZE d2) insertion_size) (MAX_CHARS SIZE)
  set_size_unsafe SIZE appended_size d2

/-- Source: `insert(size_t index, const char* str)`: `count = len(str, MAX_CHARS)`. -/
def insert_cstr (SIZE : Nat) (index : Nat) (str : List Nat) (d : List Nat) :
    Option (List Nat) :=
  (len str (MAX_CHARS SIZE)).bind fun count => insert_n SIZE index str count d

/-- Source: `insert(size_t index, const TStr& str)`: `insert(index, str.data(), str.size())`,
here for `str` a `Str<OSIZE>`. -/
def insert_tstr (SIZE : Nat) (index : Nat) (OSIZE : Nat) (other : List Nat) (d : List Nat) :
    Option (List Nat) :=
  insert_n SIZE index other (size OSIZE other) d

/-! ## Str: append -/

/-- Source: `append(size_t count, char fill)`: `insert(size(), count, fill)`. -/
def append (SIZE : Nat) (count fill : Nat) (d : List Nat) : Option (List Nat) :=
  insert SIZE (size SIZE d) count fill d

/-- Source: `append(const char* str)`: `insert(size(), str)`. -/
def append_cstr (SIZE : Nat) (str : List Nat) (d : List Nat) : Option (List Nat) :=
  insert_cstr SIZE (size SIZE d) str d

/-- Source: `append(const char* str, size_t count)`: `insert(size(), str, count)`. -/
def append_n (SIZE : Nat) (str : List Nat) (count : Nat) (d : List Nat) : Option (List Nat) :=
  insert_n SIZE (size SIZE d) str count d

/-- Source: `append(const TStr& str)`: `insert(size(), str)`. -/
def append_tstr (SIZE : Nat) (OSIZE : Nat) (other : List Nat) (d : List Nat) :
    Option (List Nat) :=
  insert_tstr SIZE (size SIZE d) OSIZE other d

/-! ## Str: erase -/

/-- Source: `erase(size_t index, size_t count)`.  The local `move_size` of the source is
computed and never used; the `memmove` length is `size() - index`. -/
def erase (SIZE : Nat) (index count : Nat) (d : List Nat) : Option (List Nat) :=
  let erase_point := minimum index (size SIZE d)
  let erase_size := minimum count (subSz (size SIZE d) index)
  (memmove d erase_point (addSz erase_point erase_size) (subSz (size SIZE d) index)).bind
    fun d1 => modify_size SIZE (to_int8 (negSz erase_size)) d1

/-- Source: `erase(const char* position)`: `erase(position - cbegin(), 1)`; `position` is
given as its offset from `cbegin()`. -/
def erase_at (SIZE : Nat) (position : Nat) (d : List Nat) : Option (List Nat) :=
  erase SIZE position 1 d

/-- Source: `erase(const char* first, const char* last)`:
`erase(first - cbegin(), last - first)`; both are given as offsets from `cbegin()`. -/
def erase_range (SIZE : Nat) (first last : Nat) (d : List Nat) : Option (List Nat) :=
  erase SIZE first (subSz last first) d

/-! ## Str: operators -/

/-- Source: `operator+=(char chr)`: `append(&chr, sizeof(chr))`. -/
def add_assign_char (SIZE : Nat) (chr : Nat) (d : List Nat) : Option (List Nat) :=
  append_n SIZE [chr] 1 d

/-- Source: `operator+=(const char* str)`: `append(str)`. -/
def add_assign_cstr (SIZE : Nat) (str : List Nat) (d : List Nat) : Option (List Nat) :=
  append_cstr SIZE str d

/-- Source: `operator+=(const TString& str)`: `append(str)`. -/
def add_assign_tstr (SIZE : Nat) (OSIZE : Nat) (other : List Nat) (d : List Nat) :
    Option (List Nat) :=
  append_tstr SIZE OSIZE other d

/-- Source: `operator%(lhs, rhs)`: a `Str<LSIZE + RSIZE - 1>` constructed from `""`, then
`.append(lhs).append(rhs)`. -/
def concat (LSIZE RSIZE : Nat) (garbage lhs rhs : List Nat) : Option (List Nat) :=
  (ctor_cstr (LSIZE + RSIZE - 1) garbage [0]).bind fun c0 =>
  (append_tstr (LSIZE + RSIZE - 1) LSIZE lhs c0).bind fun c1 =>
  append_tstr (LSIZE + RSIZE - 1) RSIZE rhs c1

/-! ## Invariant and reachable buffers -/

/-- The size/terminator invariant of a `Str<SIZE>`: the storage has `SIZE` bytes,
`size() <= capacity()` and `data()[size()]` is the terminator. -/
def Inv (SIZE : Nat) (d : List Nat) : Prop :=
  d.length = SIZE ∧ size SIZE d ≤ capacity SIZE ∧ memRead d (size SIZE d) = some 0

/-- Buffers obtained from a constructor by a finite sequence of mutating operations,
each of which returned. -/
inductive Reachable (SIZE : Nat) : List Nat → Prop
  | by_ctor_default {g d : List Nat} :
      g.length = SIZE → ctor_default SIZE g = some d → Reachable SIZE d
  | by_ctor {g str d : List Nat} {sz : Nat} :
      g.length = SIZE → ctor SIZE g str sz = some d → Reachable SIZE d
  | by_ctor_cstr {g str d : List Nat} :
      g.length = SIZE → ctor_cstr SIZE g str = some d → Reachable SIZE d
  | by_ctor_literal {literal d : List Nat} :
      literal.length = SIZE → ctor_literal SIZE literal = some d → Reachable SIZE d
  | by_ctor_from {g other d : List Nat} {OSIZE : Nat} :
      g.length = SIZE → ctor_from SIZE g OSIZE other = some d → Reachable SIZE d
  | by_push_back {d d' : List Nat} {c : Nat} :
      Reachable SIZE d → full SIZE d = false → push_back SIZE c d = some d' → Reachable SIZE d'
  | by_pop_back {d d' : List Nat} :
      Reachable SIZE d → empty SIZE d = false → pop_back SIZE d = some d' → Reachable SIZE d'
  | by_clear {d d' : List Nat} :
      Reachable SIZE d → clear SIZE d = some d' → Reachable SIZE d'
  | by_insert {d d' : List Nat} {index count fill : Nat} :
      Reachable SIZE d → insert SIZE index count fill d = some d' → Reachable SIZE d'
  | by_insert_cstr {d d' str : List Nat} {index : Nat} :
      Reachable SIZE d → insert_cstr SIZE index str d = some d' → Reachable SIZE d'
  | by_insert_n {d d' str : List Nat} {index count : Nat} :
      Reachable SIZE d → insert_n SIZE index str count d = some d' → Reachable SIZE d'
  | by_insert_tstr {d d' other : List Nat} {index OSIZE : Nat} :
      Reachable SIZE d → insert_tstr SIZE index OSIZE other d = some d' → Reachable SIZE d'
  | by_append {d d' : List Nat} {count fill : Nat} :
      Reachable SIZE d → append SIZE count fill d = some d' → Reachable SIZE d'
  | by_append_cstr {d d' str : List Nat} :
      Reachable SIZE d → append_cstr SIZE str d = some d' → Reachable SIZE d'
  | by_append_n {d d' str : List Nat} {count : Nat} :
      Reachable SIZE d → append_n SIZE str count d = some d' → Reachable SIZE d'
  | by_append_tstr {d d' other : List Nat} {OSIZE : Nat} :
      Reachable SIZE d → append_tstr SIZE OSIZE other d = some d' → Reachable SIZE d'
  | by_erase {d d' : List Nat} {index count : Nat} :
      Reachable SIZE d → erase SIZE index count d = some d' → Reachable SIZE d'
  | by_erase_at {d d' : List Nat} {position : Nat} :
      Reachable SIZE d → erase_at SIZE position d = some d' → Reachable SIZE d'
  | by_erase_range {d d' : List Nat} {first last : Nat} :
      Reachable SIZE d → erase_range SIZE first last d = some d' → Reachable SIZE d'

/-- The call sequence `push_back(c1); ...; push_back(ck)` for the characters of `cs`. -/
def push_back_all (SIZE : Nat) : List Nat → List Nat → Option (List Nat)
  | [], d => some d
  | c :: cs, d => (push_back SIZE c d).bind (push_back_all SIZE cs)

/-- Construction `Str<SIZE>(other)` from an lvalue `other` of type `Str<OSIZE>`.  For
`OSIZE = SIZE` overload resolution prefers the implicit copy constructor (a member-wise
copy of `_data`) to the constructor template; otherwise the template
`Str(const TStr& other)` runs. -/
def ctor_copy (SIZE : Nat) (garbage : List Nat) (OSIZE : Nat) (other : List Nat) :
    Option (List Nat) :=
  if OSIZE = SIZE then some other else ctor_from SIZE garbage OSIZE other

/-! ## Str: the storage accesses of insert and erase

The arguments handed to `memmove` and `memcpy` by `insert(size_t, const char*, size_t)` and
by `erase(size_t, size_t)`, named after the locals of the source, and the storage indices
those calls read and write. -/

/-- Source: `insert(size_t, const char*, size_t)`, local `insertion_point`. -/
def insert_n_insertion_point (SIZE index : Nat) (d : List Nat) : Nat :=
  minimum index (size SIZE d)

/-- Source: `insert(size_t, const char*, size_t)`, local `insertion_size`. -/
def insert_n_insertion_size (SIZE index count : Nat) (d : List Nat) : Nat :=
  minimum count (subSz (MAX_CHARS SIZE) (insert_n_insertion_point SIZE index d))

/-- Source: `insert(size_t, const char*, size_t)`, local `move_size` after the `if`. -/
def insert_n_move_size (SIZE index count : Nat) (d : List Nat) : Nat :=
  if addSz (subSz (size SIZE d) (insert_n_insertion_point SIZE index d))
      (insert_n_insertion_size SIZE index count d) > MAX_CHARS SIZE then
    subSz (subSz (size SIZE d) (insert_n_insertion_point SIZE index d))
      (insert_n_insertion_size SIZE index count d)
  else subSz (size SIZE d) (insert_n_insertion_point SIZE index d)

/-- Whether `insert(index, str, count)` writes storage index `j` before its final
`set_size_unsafe`: `j` lies in the destination of the `memmove`,
`[insertion_point + insertion_size, + move_size)`, or of the `memcpy`,
`[insertion_point, + insertion_size)`. -/
def insert_n_writes (SIZE index count : Nat) (d : List Nat) (j : Nat) : Bool :=
  (decide (addSz (insert_n_insertion_point SIZE index d)
        (insert_n_insertion_size SIZE index count d) ≤ j) &&
    decide (j < addSz (insert_n_insertion_point SIZE index d)
        (insert_n_insertion_size SIZE index count d) + insert_n_move_size SIZE index count d)) ||
  (decide (insert_n_insertion_point SIZE index d ≤ j) &&
    decide (j < insert_n_insertion_point SIZE index d
        + insert_n_insertion_size SIZE index count d))

/-- Source: `erase(size_t, size_t)`, local `erase_point`. -/
def erase_erase_point (SIZE index : Nat) (d : List Nat) : Nat := minimum index (size SIZE d)

/-- Source: `erase(size_t, size_t)`, local `erase_size`. -/
def erase_erase_size (SIZE index count : Nat) (d : List Nat) : Nat :=
  minimum count (subSz (size SIZE d) index)

/-- Whether the `memmove` of `erase(index, count)` reads storage index `j`: the source is
`[erase_point + erase_size, + (size() - index))`. -/
def erase_reads (SIZE index count : Nat) (d : List Nat) (j : Nat) : Bool :=
  decide (addSz (erase_erase_point SIZE index d) (erase_erase_size SIZE index count d) ≤ j) &&
    decide (j < addSz (erase_erase_point SIZE index d) (erase_erase_size SIZE index count d)
      + subSz (size SIZE d) index)

/-- Whether the `memmove` of `erase(index, count)` writes storage index `j`: the
destination (it does not depend on `count`) is `[erase_point, + (size() - index))`. -/
def erase_writes (SIZE index : Nat) (d : List Nat) (j : Nat) : Bool :=
  decide (erase_erase_point SIZE index d ≤ j) &&
    decide (j < erase_erase_point SIZE index d + subSz (size SIZE d) index)

/-- Every stored value is a byte. -/
def Bytes (d : List Nat) : Prop := ∀ b ∈ d, b < 256

end Str

/-! ## detail/IArr.hpp: the array view over `data()` and `size()`

The assertions of `at`, `front` and `back` are commented out in the source, so the three
are plain reads of the storage.  Iterators are pointers into the storage and are
represented by their offset from `data()`. -/

namespace IArr

/-- Source: `operator[](size_type i)`: `return data()[i];`. -/
def index (data : List Nat) (i : Nat) : Option Nat := memRead data i

/-- Source: `at(size_type i)`: `return data()[i];` (`at` is reserved in Lean). -/
def at_ (data : List Nat) (i : Nat) : Option Nat := memRead data i

/-- Source: `front()`: `return data()[0];`. -/
def front (data : List Nat) : Option Nat := memRead data 0

/-- Source: `back()`: `return data()[size()];`. -/
def back (data : List Nat) (size : Nat) : Option Nat := memRead data size

/-- Source: `begin()` / `cbegin()`: `&data()[0]`. -/
def begin_ : Nat := 0

/-- Source: `end()` / `cend()`: `&data()[size()]`. -/
def end_ (size : Nat) : Nat := size

/-- The iterator loop `for (it = first; it != last; ++it) visit(*it)` of a caller
walking the storage; the first argument counts the remaining `last - it` steps and the
result lists the visited characters. -/
def traverse (data : List Nat) : Nat → Nat → Option (List Nat)
  | 0, _ => some []
  | r + 1, it => (memRead data it).bind fun c => (traverse data r (it + 1)).map (List.cons c)

end IArr

/-! ## Interval.hpp: Interval -/

/-- Source: `class Interval` with the public members `min` and `max`. -/
structure Interval (T : Type) where
  /-- Minimum inclusive boundary. -/
  min : T
  /-- Maximum inclusive boundary. -/
  max : T

/-- Source: `Interval(T min, T max)`: `min(minimum(min, max)), max(maximum(min, max))`. -/
def Interval.make {T : Type} [LT T] [DecidableRel (fun a b : T => a < b)] (min max : T) :
    Interval T :=
  ⟨minimum min max, maximum min max⟩

/-- Source: `clip(value)`: `return minimum(max, maximum(min, value));`. -/
def Interval.clip {T : Type} [LT T] [DecidableRel (fun a b : T => a < b)] (self : Interval T)
    (value : T) : T :=
  minimum self.max (maximum self.min value)

/-- Source: `inRange(value)`: `return clip(value) == value;`. -/
def Interval.inRange {T : Type} [LT T] [DecidableRel (fun a b : T => a < b)] [DecidableEq T]
    (self : Interval T) (value : T) : Bool :=
  decide (self.clip value = value)

namespace Str

/-! ## Basic facts about the machine model -/

set_option maxRecDepth 100000

theorem subSz_eq (a b : Nat) (hb : b ≤ a) (ha : a < 2 ^ 64) : subSz a b = a - b := by
  unfold subSz SIZE_T_RANGE; omega

theorem memWrite_some {a : List Nat} {i v : Nat} {a' : List Nat} (h : memWrite a i v = some a') :
    i < a.length ∧ a' = a.set i v := by
  unfold memWrite at h
  split at h
  · exact ⟨by assumption, by simpa using h.symm⟩
  · simp at h

theorem char_to_size_t_of_le {c : Nat} (h : c ≤ 127) : char_to_size_t c = c := by
  unfold char_to_size_t int_to_size_t to_int8 SIZE_T_RANGE
  split <;> omega

theorem char_to_size_t_of_ge {c : Nat} (h1 : 128 ≤ c) (h2 : c ≤ 255) :
    char_to_size_t c = 2 ^ 64 - 256 + c := by
  unfold char_to_size_t int_to_size_t to_int8 SIZE_T_RANGE
  split <;> omega

theorem char_to_size_t_mod (c : Nat) : char_to_size_t (c % 256) = char_to_size_t c := by
  unfold char_to_size_t to_int8
  rw [Nat.mod_mod]

/-- A marker byte `v` that `size()` reads back as a size within the capacity is at most
127 and at most `MAX_CHARS`, and is read as itself. -/
theorem subSz_char_facts {M v : Nat} (hM : M ≤ 254) (hv : v < 256)
    (h : subSz M (char_to_size_t v) ≤ M) :
    v ≤ M ∧ v ≤ 127 ∧ char_to_size_t v = v ∧ subSz M (char_to_size_t v) = M - v := by
  unfold subSz char_to_size_t int_to_size_t to_int8 SIZE_T_RANGE at *
  split at h <;> split <;> omega

theorem available_set (SIZE : Nat) (d : List Nat) (i v : Nat) (hi : i < d.length) :
    available SIZE (d.set i v)
      = if i = MAX_CHARS SIZE then char_to_size_t v else available SIZE d := by
  unfold available
  simp only [List.getD_eq_getElem?_getD, List.getElem?_set]
  split <;> simp_all

theorem set_size_unsafe_some {SIZE sz : Nat} {d d' : List Nat}
    (h : set_size_unsafe SIZE sz d = some d') (hlen : d.length = SIZE)
    (h1 : 1 ≤ SIZE) (h255 : SIZE ≤ 255) :
    d'.length = SIZE ∧ size SIZE d' ≤ MAX_CHARS SIZE ∧ d'[size SIZE d']? = some 0 := by
  unfold set_size_unsafe at h
  obtain ⟨d1, hw1, hw2⟩ := Option.bind_eq_some.mp h
  obtain ⟨hi1, rfl⟩ := memWrite_some hw1
  obtain ⟨hi2, rfl⟩ := memWrite_some hw2
  have hM : MAX_CHARS SIZE < d.length := by unfold MAX_CHARS; omega
  have hs1 : size SIZE (d.set (MAX_CHARS SIZE) (subSz (MAX_CHARS SIZE) (to_uint8 sz) % 256))
      = subSz (MAX_CHARS SIZE)
          (char_to_size_t (subSz (MAX_CHARS SIZE) (to_uint8 sz) % 256)) := by
    unfold size max_size
    rw [available_set _ _ _ _ hM]; simp
  rw [hs1] at hi2 ⊢
  generalize hv : subSz (MAX_CHARS SIZE) (to_uint8 sz) % 256 = v at *
  have hv256 : v < 256 := by rw [← hv]; exact Nat.mod_lt _ (by norm_num)
  simp only [List.length_set] at hi2
  have hM254 : MAX_CHARS SIZE ≤ 254 := by unfold MAX_CHARS; omega
  obtain ⟨hvM, hv127, hcv, hk⟩ := subSz_char_facts hM254 hv256
    (by unfold MAX_CHARS at *; omega)
  rw [hk]
  refine ⟨by simp [hlen], ?_⟩
  have hs2 : size SIZE ((d.set (MAX_CHARS SIZE) v).set (MAX_CHARS SIZE - v) 0) = MAX_CHARS SIZE - v := by
    unfold size max_size
    rw [available_set _ _ _ _ (by simp; omega)]
    split
    · rename_i he
      have : v = 0 := by omega
      subst this
      rw [char_to_size_t_of_le (by omega)]
      unfold subSz SIZE_T_RANGE; unfold MAX_CHARS; omega
    · rw [available_set _ _ _ _ hM]; simp [hk]
  rw [hs2]
  refine ⟨by omega, ?_⟩
  rw [List.getElem?_set]; simp; omega


theorem memWrite_length {a a' : List Nat} {i v : Nat} (h : memWrite a i v = some a') :
    a'.length = a.length := by
  obtain ⟨_, rfl⟩ := memWrite_some h; simp

theorem memmove_some {a a' : List Nat} {dst src n : Nat} (h : memmove a dst src n = some a') :
    (src + n ≤ a.length ∧ dst + n ≤ a.length) ∧
      a' = a.take dst ++ (a.drop src).take n ++ a.drop (dst + n) := by
  unfold memmove at h
  split at h
  · exact ⟨by assumption, by simpa using h.symm⟩
  · simp at h

theorem memmove_length {a a' : List Nat} {dst src n : Nat} (h : memmove a dst src n = some a') :
    a'.length = a.length := by
  obtain ⟨⟨h1, h2⟩, rfl⟩ := memmove_some h
  simp; omega

theorem memcpy_some {a a' str : List Nat} {dst n : Nat} (h : memcpy a dst str n = some a') :
    (n ≤ str.length ∧ dst + n ≤ a.length) ∧
      a' = a.take dst ++ str.take n ++ a.drop (dst + n) := by
  unfold memcpy at h
  split at h
  · exact ⟨by assumption, by simpa using h.symm⟩
  · simp at h

theorem memcpy_length {a a' str : List Nat} {dst n : Nat} (h : memcpy a dst str n = some a') :
    a'.length = a.length := by
  obtain ⟨⟨h1, h2⟩, rfl⟩ := memcpy_some h
  simp; omega

theorem insert_shift_length (count bound : Nat) :
    ∀ (i : Nat) (d d' : List Nat), insert_shift count bound i d = some d' → d'.length = d.length
  | 0, d, d', h => by
    unfold insert_shift at h
    split at h
    · simp at h; simp [h]
    · simp at h
  | i + 1, d, d', h => by
    unfold insert_shift at h
    split at h
    · simp at h; simp [h]
    · obtain ⟨v, _, h2⟩ := Option.bind_eq_some.mp h
      obtain ⟨d1, h3, h4⟩ := Option.bind_eq_some.mp h2
      rw [insert_shift_length count bound i d1 d' h4, memWrite_length h3]

theorem insert_fill_length (SIZE index fill : Nat) :
    ∀ (r i : Nat) (d d' : List Nat), insert_fill SIZE index fill r i d = some d' →
      d'.length = d.length
  | 0, i, d, d', h => by
    unfold insert_fill at h; simp at h; simp [h]
  | r + 1, i, d, d', h => by
    unfold insert_fill at h
    split at h
    · obtain ⟨d1, h3, h4⟩ := Option.bind_eq_some.mp h
      rw [insert_fill_length SIZE index fill r (i + 1) d1 d' h4, memWrite_length h3]
    · simp at h; simp [h]

theorem cpy_copy_length (src : List Nat) :
    ∀ (r i : Nat) (dst : List Nat) (res : Nat × List Nat),
      cpy_copy src r i dst = some res → res.2.length = dst.length
  | 0, i, dst, res, h => by
    unfold cpy_copy at h; simp at h; simp [← h]
  | r + 1, i, dst, res, h => by
    unfold cpy_copy at h
    obtain ⟨c, _, h2⟩ := Option.bind_eq_some.mp h
    split at h2
    · obtain ⟨d1, h3, h4⟩ := Option.bind_eq_some.mp h2
      rw [cpy_copy_length src r (i + 1) d1 res h4, memWrite_length h3]
    · simp at h2; simp [← h2]

theorem cpy_pad_length :
    ∀ (r i : Nat) (dst d' : List Nat), cpy_pad r i dst = some d' → d'.length = dst.length
  | 0, i, dst, d', h => by
    unfold cpy_pad at h; simp at h; simp [h]
  | r + 1, i, dst, d', h => by
    unfold cpy_pad at h
    obtain ⟨d1, h3, h4⟩ := Option.bind_eq_some.mp h
    rw [cpy_pad_length r (i + 1) d1 d' h4, memWrite_length h3]

theorem Inv_of_set_size_unsafe {SIZE sz : Nat} {d d' : List Nat}
    (h1 : 1 ≤ SIZE) (h255 : SIZE ≤ 255) (hlen : d.length = SIZE)
    (h : set_size_unsafe SIZE sz d = some d') : Inv SIZE d' := by
  obtain ⟨a, b, c⟩ := set_size_unsafe_some h hlen h1 h255
  exact ⟨a, b, c⟩

theorem Inv_modify_size {SIZE : Nat} {diff : Int} {d d' : List Nat}
    (h1 : 1 ≤ SIZE) (h255 : SIZE ≤ 255) (hlen : d.length = SIZE)
    (h : modify_size SIZE diff d = some d') : Inv SIZE d' := by
  unfold modify_size at h
  exact Inv_of_set_size_unsafe h1 h255 hlen h

theorem Inv_ctor {SIZE sz : Nat} {g str d : List Nat}
    (h1 : 1 ≤ SIZE) (h255 : SIZE ≤ 255) (hlen : g.length = SIZE)
    (h : ctor SIZE g str sz = some d) : Inv SIZE d := by
  unfold ctor at h
  obtain ⟨n, _, h2⟩ := Option.bind_eq_some.mp h
  obtain ⟨d1, h3, h4⟩ := Option.bind_eq_some.mp h2
  exact Inv_of_set_size_unsafe h1 h255 (by rw [memcpy_length h3, hlen]) h4

theorem Inv_ctor_literal {SIZE : Nat} {literal d : List Nat}
    (h1 : 1 ≤ SIZE) (h255 : SIZE ≤ 255)
    (h : ctor_literal SIZE literal = some d) : Inv SIZE d := by
  unfold ctor_literal cpy at h
  obtain ⟨r, hr, h2⟩ := Option.bind_eq_some.mp h
  obtain ⟨d2, h3, h4⟩ := Option.bind_eq_some.mp h2
  have hl2 : d2.length = SIZE := by
    rw [cpy_pad_length _ _ _ _ h3, cpy_copy_length _ _ _ _ _ hr]; simp
  obtain ⟨hi, rfl⟩ := memWrite_some h4
  have hsub : subSz SIZE 1 = MAX_CHARS SIZE := by
    unfold subSz SIZE_T_RANGE MAX_CHARS; omega
  rw [hsub] at hi ⊢
  have hs : size SIZE (d2.set (MAX_CHARS SIZE) 0) = MAX_CHARS SIZE := by
    unfold size max_size
    rw [available_set _ _ _ _ hi, if_pos rfl, char_to_size_t_of_le (by omega)]
    unfold subSz SIZE_T_RANGE MAX_CHARS; omega
  refine ⟨by simp [hl2], by rw [hs]; exact Nat.le_refl _, ?_⟩
  rw [hs]; unfold memRead
  rw [List.getElem?_set]; simp [hi]

theorem Inv_insert {SIZE index count fill : Nat} {d d' : List Nat}
    (h1 : 1 ≤ SIZE) (h255 : SIZE ≤ 255) (hlen : d.length = SIZE)
    (h : insert SIZE index count fill d = some d') : Inv SIZE d' := by
  unfold insert at h
  obtain ⟨d1, h2, h3⟩ := Option.bind_eq_some.mp h
  obtain ⟨d2, h4, h5⟩ := Option.bind_eq_some.mp h3
  exact Inv_of_set_size_unsafe h1 h255
    (by rw [insert_fill_length _ _ _ _ _ _ _ h4, insert_shift_length _ _ _ _ _ h2, hlen]) h5

theorem Inv_insert_n {SIZE index count : Nat} {str d d' : List Nat}
    (h1 : 1 ≤ SIZE) (h255 : SIZE ≤ 255) (hlen : d.length = SIZE)
    (h : insert_n SIZE index str count d = some d') : Inv SIZE d' := by
  unfold insert_n at h
  obtain ⟨d1, h2, h3⟩ := Option.bind_eq_some.mp h
  obtain ⟨d2, h4, h5⟩ := Option.bind_eq_some.mp h3
  exact Inv_of_set_size_unsafe h1 h255
    (by rw [memcpy_length h4, memmove_length h2, hlen]) h5

theorem Inv_insert_cstr {SIZE index : Nat} {str d d' : List Nat}
    (h1 : 1 ≤ SIZE) (h255 : SIZE ≤ 255) (hlen : d.length = SIZE)
    (h : insert_cstr SIZE index str d = some d') : Inv SIZE d' := by
  unfold insert_cstr at h
  obtain ⟨n, _, h2⟩ := Option.bind_eq_some.mp h
  exact Inv_insert_n h1 h255 hlen h2

theorem Inv_erase {SIZE index count : Nat} {d d' : List Nat}
    (h1 : 1 ≤ SIZE) (h255 : SIZE ≤ 255) (hlen : d.length = SIZE)
    (h : erase SIZE index count d = some d') : Inv SIZE d' := by
  unfold erase at h
  obtain ⟨d1, h2, h3⟩ := Option.bind_eq_some.mp h
  exact Inv_modify_size h1 h255 (by rw [memmove_length h2, hlen]) h3

theorem Inv_push_back {SIZE c : Nat} {d d' : List Nat}
    (h1 : 1 ≤ SIZE) (h255 : SIZE ≤ 255) (hlen : d.length = SIZE)
    (h : push_back SIZE c d = some d') : Inv SIZE d' := by
  unfold push_back at h
  obtain ⟨d1, h2, h3⟩ := Option.bind_eq_some.mp h
  exact Inv_modify_size h1 h255 (by rw [memWrite_length h2, hlen]) h3

theorem Inv_pop_back {SIZE : Nat} {d d' : List Nat}
    (h1 : 1 ≤ SIZE) (h255 : SIZE ≤ 255) (hlen : d.length = SIZE)
    (h : pop_back SIZE d = some d') : Inv SIZE d' := by
  unfold pop_back at h
  obtain ⟨d1, h2, h3⟩ := Option.bind_eq_some.mp h
  exact Inv_modify_size h1 h255 (by rw [memWrite_length h2, hlen]) h3

theorem Inv_of_Reachable {SIZE : Nat} {d : List Nat} (h1 : 1 ≤ SIZE) (h255 : SIZE ≤ 255)
    (h : Reachable SIZE d) : Inv SIZE d := by
  induction h with
  | by_ctor_default hg h =>
    unfold ctor_default clear at h; exact Inv_of_set_size_unsafe h1 h255 hg h
  | by_ctor hg h => exact Inv_ctor h1 h255 hg h
  | by_ctor_cstr hg h => unfold ctor_cstr at h; exact Inv_ctor h1 h255 hg h
  | by_ctor_literal _ h => exact Inv_ctor_literal h1 h255 h
  | by_ctor_from hg h => unfold ctor_from at h; exact Inv_ctor h1 h255 hg h
  | by_push_back _ _ h ih => exact Inv_push_back h1 h255 ih.1 h
  | by_pop_back _ _ h ih => exact Inv_pop_back h1 h255 ih.1 h
  | by_clear _ h ih => unfold clear at h; exact Inv_of_set_size_unsafe h1 h255 ih.1 h
  | by_insert _ h ih => exact Inv_insert h1 h255 ih.1 h
  | by_insert_cstr _ h ih => exact Inv_insert_cstr h1 h255 ih.1 h
  | by_insert_n _ h ih => exact Inv_insert_n h1 h255 ih.1 h
  | by_insert_tstr _ h ih => unfold insert_tstr at h; exact Inv_insert_n h1 h255 ih.1 h
  | by_append _ h ih => unfold append at h; exact Inv_insert h1 h255 ih.1 h
  | by_append_cstr _ h ih => unfold append_cstr at h; exact Inv_insert_cstr h1 h255 ih.1 h
  | by_append_n _ h ih => unfold append_n at h; exact Inv_insert_n h1 h255 ih.1 h
  | by_append_tstr _ h ih =>
    unfold append_tstr insert_tstr at h; exact Inv_insert_n h1 h255 ih.1 h
  | by_erase _ h ih => exact Inv_erase h1 h255 ih.1 h
  | by_erase_at _ h ih => unfold erase_at at h; exact Inv_erase h1 h255 ih.1 h
  | by_erase_range _ h ih => unfold erase_range at h; exact Inv_erase h1 h255 ih.1 h

theorem Inv_of_Reachable_witness : Inv 5 [97, 98, 0, 170, 2] :=
  Inv_of_Reachable (by decide) (by decide)
    (Reachable.by_push_back (c := 98) (d := [97, 0, 170, 170, 3])
      (Reachable.by_push_back (c := 97) (d := [0, 170, 170, 170, 4])
        (Reachable.by_ctor_default (g := [170, 170, 170, 170, 170]) (by decide) (by decide))
        (by decide) (by decide))
      (by decide) (by decide))

/-- C1: the default constructor of Str<129> stores the marker 128 = SIZE - 1 - 0 in the last storage byte; available() reads that byte back through the signed char as -128, so size() is 128 + 128 = 256, above capacity() = 128, and the terminator is written to index 256, outside the 129-byte storage: the constructor has no defined result -/
theorem C1_default_ctor_size_exceeds_capacity :
    (List.replicate 129 170).length = 129 ∧ capacity 129 = 128 ∧
      memWrite (List.replicate 129 170) (MAX_CHARS 129)
          (subSz (MAX_CHARS 129) (to_uint8 0) % 256)
        = some ((List.replicate 129 170).set 128 128) ∧
      to_int8 128 = -128 ∧
      available 129 ((List.replicate 129 170).set 128 128) = 18446744073709551488 ∧
      size 129 ((List.replicate 129 170).set 128 128) = 256 ∧
      ¬ (size 129 ((List.replicate 129 170).set 128 128) ≤ capacity 129) ∧
      memWrite ((List.replicate 129 170).set 128 128) 256 0 = none ∧
      ctor_default 129 (List.replicate 129 170) = none :=
  ⟨by decide, by decide, by decide, by decide, by decide, by decide, by decide, by decide,
    by decide⟩

/-- Where the new marker `MAX_CHARS - sz` is at most 127 (it is read back through a signed
`char`), `set_size_unsafe(sz)` returns, with the marker in the last byte and the terminator
at index `sz`. -/
theorem set_size_unsafe_eq {SIZE sz : Nat} {d : List Nat} (h1 : 1 ≤ SIZE) (h255 : SIZE ≤ 255)
    (hlen : d.length = SIZE) (hsz : sz ≤ MAX_CHARS SIZE) (hm : MAX_CHARS SIZE - sz ≤ 127) :
    set_size_unsafe SIZE sz d = some ((d.set (MAX_CHARS SIZE) (MAX_CHARS SIZE - sz)).set sz 0) := by
  have hM : MAX_CHARS SIZE < d.length := by unfold MAX_CHARS; omega
  have hv : subSz (MAX_CHARS SIZE) (to_uint8 sz) % 256 = MAX_CHARS SIZE - sz := by
    unfold subSz SIZE_T_RANGE to_uint8; unfold MAX_CHARS at *; omega
  have hs : size SIZE (d.set (MAX_CHARS SIZE) (MAX_CHARS SIZE - sz)) = sz := by
    unfold size max_size
    rw [available_set _ _ _ _ hM, if_pos rfl, char_to_size_t_of_le hm]
    unfold subSz SIZE_T_RANGE; unfold MAX_CHARS at *; omega
  unfold set_size_unsafe
  rw [hv]
  simp only [memWrite, hM, if_true, Option.some_bind, hs, List.length_set]
  rw [if_pos (by omega)]

theorem size_set_size {SIZE sz : Nat} {d : List Nat} (h1 : 1 ≤ SIZE) (h255 : SIZE ≤ 255)
    (hlen : d.length = SIZE) (hsz : sz ≤ MAX_CHARS SIZE) (hm : MAX_CHARS SIZE - sz ≤ 127) :
    size SIZE ((d.set (MAX_CHARS SIZE) (MAX_CHARS SIZE - sz)).set sz 0) = sz := by
  have hM : MAX_CHARS SIZE < d.length := by unfold MAX_CHARS; omega
  unfold size max_size
  rw [available_set _ _ _ _ (by simp; omega)]
  split
  · rename_i he
    rw [char_to_size_t_of_le (by omega)]
    unfold subSz SIZE_T_RANGE; unfold MAX_CHARS at *; omega
  · rw [available_set _ _ _ _ hM, if_pos rfl, char_to_size_t_of_le hm]
    unfold subSz SIZE_T_RANGE; unfold MAX_CHARS at *; omega

/-- The invariant bounds the marker: a buffer with `size() <= capacity()` has a marker
byte that is read as `MAX_CHARS - size()`, a value of at most 127. -/
theorem available_of_Inv {SIZE : Nat} {d : List Nat} (h255 : SIZE ≤ 255) (hinv : Inv SIZE d) :
    available SIZE d = MAX_CHARS SIZE - size SIZE d ∧ MAX_CHARS SIZE - size SIZE d ≤ 127 := by
  obtain ⟨hlen, hsz, _⟩ := hinv
  have hM254 : MAX_CHARS SIZE ≤ 254 := by unfold MAX_CHARS; omega
  have hsize : size SIZE d
      = subSz (MAX_CHARS SIZE) (char_to_size_t (d.getD (MAX_CHARS SIZE) 0 % 256)) := by
    unfold size max_size available
    rw [char_to_size_t_mod]
  have hav : available SIZE d = char_to_size_t (d.getD (MAX_CHARS SIZE) 0 % 256) := by
    unfold available
    rw [char_to_size_t_mod]
  unfold capacity at hsz
  rw [hsize] at hsz
  obtain ⟨a, b, c, e⟩ := subSz_char_facts hM254 (Nat.mod_lt _ (by norm_num)) hsz
  rw [hav, hsize, e, c]
  omega

theorem available_set_size {SIZE sz : Nat} {d : List Nat} (h1 : 1 ≤ SIZE)
    (hlen : d.length = SIZE) (hsz : sz ≤ MAX_CHARS SIZE) (hm : MAX_CHARS SIZE - sz ≤ 127) :
    available SIZE ((d.set (MAX_CHARS SIZE) (MAX_CHARS SIZE - sz)).set sz 0)
      = MAX_CHARS SIZE - sz := by
  have hM : MAX_CHARS SIZE < d.length := by unfold MAX_CHARS; omega
  rw [available_set _ _ _ _ (by simp; omega)]
  split
  · rw [char_to_size_t_of_le (by omega)]; omega
  · rw [available_set _ _ _ _ hM, if_pos rfl, char_to_size_t_of_le hm]

/-- For 1 <= SIZE <= 255, sz <= SIZE - 1 and a new marker SIZE - 1 - sz of at most 127 (so
for every sz when SIZE <= 128), `set_size_unsafe(sz)` returns; afterwards the last storage
byte holds SIZE - 1 - sz, `size()` is sz, the byte at index sz is 0, and for sz = SIZE - 1
the marker byte itself is that 0 (the part of C10 that the code satisfies). -/
theorem set_size_unsafe_spec (SIZE sz : Nat) (d : List Nat)
    (h1 : 1 ≤ SIZE) (h255 : SIZE ≤ 255) (hsz : sz ≤ SIZE - 1) (hm : SIZE - 1 - sz ≤ 127)
    (hlen : d.length = SIZE) :
    ∃ d', set_size_unsafe SIZE sz d = some d' ∧
      memRead d' (SIZE - 1) = some (SIZE - 1 - sz) ∧
      available SIZE d' = SIZE - 1 - sz ∧
      size SIZE d' = capacity SIZE - available SIZE d' ∧
      size SIZE d' = sz ∧
      memRead d' sz = some 0 ∧
      (sz = SIZE - 1 → memRead d' (SIZE - 1) = some 0 ∧ available SIZE d' = 0) := by
  have hsz' : sz ≤ MAX_CHARS SIZE := hsz
  have hm' : MAX_CHARS SIZE - sz ≤ 127 := hm
  refine ⟨_, set_size_unsafe_eq h1 h255 hlen hsz' hm', ?_⟩
  have hs := size_set_size h1 h255 hlen hsz' hm'
  have hrd : memRead ((d.set (MAX_CHARS SIZE) (MAX_CHARS SIZE - sz)).set sz 0) (SIZE - 1)
      = some (SIZE - 1 - sz) := by
    unfold memRead
    rw [List.getElem?_set]
    split
    · rename_i he; simp; unfold MAX_CHARS at *; omega
    · rw [List.getElem?_set]; unfold MAX_CHARS at *; simp; omega
  have hav : available SIZE ((d.set (MAX_CHARS SIZE) (MAX_CHARS SIZE - sz)).set sz 0)
      = SIZE - 1 - sz := available_set_size h1 hlen hsz' hm'
  have hz : memRead ((d.set (MAX_CHARS SIZE) (MAX_CHARS SIZE - sz)).set sz 0) sz = some 0 := by
    unfold memRead
    rw [List.getElem?_set]; simp; unfold MAX_CHARS at *; omega
  refine ⟨hrd, hav, ?_, hs, hz, ?_⟩
  · rw [hs, hav]; unfold capacity MAX_CHARS; omega
  · intro he
    refine ⟨?_, ?_⟩
    · rw [hrd, he]; simp
    · rw [hav, he]; simp

theorem set_size_unsafe_spec_witness :
    ∃ d', set_size_unsafe 5 4 [97, 98, 99, 100, 170] = some d' ∧
      memRead d' (5 - 1) = some (5 - 1 - 4) ∧
      available 5 d' = 5 - 1 - 4 ∧
      size 5 d' = capacity 5 - available 5 d' ∧
      size 5 d' = 4 ∧
      memRead d' 4 = some 0 ∧
      (4 = 5 - 1 → memRead d' (5 - 1) = some 0 ∧ available 5 d' = 0) :=
  set_size_unsafe_spec 5 4 [97, 98, 99, 100, 170]
    (by decide) (by decide) (by decide) (by decide) (by decide)

/-- C10: set_size_unsafe(0) on a Str<255> stores the marker 254 = SIZE - 1 - 0 in the last storage byte, but available() reads that byte back through the signed char as -2, so size() returns 254 + 2 = 256 instead of 0 and the terminator is written to index 256, outside the storage; on a Str<200> the call returns for sz = 72 (marker 127) and not for sz = 71 (marker 128) -/
theorem C10_marker_read_back_sign_extended :
    (List.replicate 255 170).length = 255 ∧ 0 ≤ 255 - 1 ∧
      memWrite (List.replicate 255 170) (MAX_CHARS 255)
          (subSz (MAX_CHARS 255) (to_uint8 0) % 256)
        = some ((List.replicate 255 170).set 254 254) ∧
      memRead ((List.replicate 255 170).set 254 254) (255 - 1) = some (255 - 1 - 0) ∧
      to_int8 254 = -2 ∧
      available 255 ((List.replicate 255 170).set 254 254) = 18446744073709551614 ∧
      size 255 ((List.replicate 255 170).set 254 254) = 256 ∧
      memWrite ((List.replicate 255 170).set 254 254) 256 0 = none ∧
      set_size_unsafe 255 0 (List.replicate 255 170) = none ∧
      Option.map (size 200) ( set_size_unsafe 200 72 (List.replicate 200 170)) = some 72 ∧
      set_size_unsafe 200 71 (List.replicate 200 170) = none :=
  ⟨by decide, by decide, by decide, by decide, by decide, by decide, by decide, by decide,
    by decide, by decide, by decide⟩

theorem len_loop_eq (str : List Nat) : ∀ (r i : Nat), i + r ≤ str.length →
    len_loop str r i
      = some (i + (((str.drop i).take r).takeWhile (fun c => c != 0)).length)
  | 0, i, _ => by simp [len_loop]
  | r + 1, i, h => by
    have hi : i < str.length := by omega
    unfold len_loop memRead
    rw [List.getElem?_eq_getElem hi, Option.some_bind, List.drop_eq_getElem_cons hi,
      List.take_succ_cons]
    by_cases hc : str[i] = 0
    · simp [hc]
    · rw [if_pos hc, len_loop_eq str r (i + 1) (by omega)]
      simp [List.takeWhile_cons, hc]; omega

theorem len_eq (str : List Nat) (n : Nat) (h : n ≤ str.length) :
    len str n = some (((str.take n).takeWhile (fun c => c != 0)).length) := by
  unfold len
  rw [len_loop_eq str n 0 (by omega)]; simp

theorem takeWhile_ne_zero_append (a b : List Nat) (ha : ∀ x ∈ a, x ≠ 0) :
    (a ++ 0 :: b).takeWhile (fun c => c != 0) = a := by
  induction a with
  | nil => simp
  | cons x xs ih =>
    have hx : x ≠ 0 := ha x (by simp)
    simp only [List.cons_append, List.takeWhile_cons]
    simp only [bne_iff_ne, ne_eq, hx, not_false_eq_true, if_true]
    rw [ih (fun y hy => ha y (by simp [hy]))]

theorem takeWhile_of_terminator (l : List Nat) (n : Nat) (h0 : l[n]? = some 0)
    (hnz : ∀ x ∈ l.take n, x ≠ 0) : l.takeWhile (fun c => c != 0) = l.take n := by
  have hn : n < l.length := by
    by_contra hc
    rw [List.getElem?_eq_none (by omega)] at h0; simp at h0
  have hl : l = l.take n ++ 0 :: l.drop (n + 1) := by
    conv_lhs => rw [← List.take_append_drop n l, List.drop_eq_getElem_cons hn]
    rw [List.getElem?_eq_getElem hn] at h0
    simp at h0; rw [h0]
  conv_lhs => rw [hl]
  exact takeWhile_ne_zero_append _ _ hnz

theorem length_takeWhile_le_length (p : Nat → Bool) (l : List Nat) :
    (l.takeWhile p).length ≤ l.length := by
  induction l with
  | nil => simp
  | cons x xs ih =>
    rw [List.takeWhile_cons]
    split
    · simp; omega
    · simp

theorem take_length_takeWhile (p : Nat → Bool) (l : List Nat) :
    l.take (l.takeWhile p).length = l.takeWhile p := by
  induction l with
  | nil => simp
  | cons x xs ih =>
    rw [List.takeWhile_cons]
    split <;> simp [ih]

theorem mem_takeWhile_ne_zero (l : List Nat) : ∀ x ∈ l.takeWhile (fun c => c != 0), x ≠ 0 := by
  intro x hx
  have := List.mem_takeWhile_imp hx
  simpa using this


/-- Where the new marker `SIZE - 1 - min(L, SIZE - 1)` is at most 127 (so for every source
when `SIZE <= 128`), the raw constructor returns, and its result is the source cut at its
first terminator and at `SIZE - 1` characters: `size()` is `min(L, SIZE - 1)`, `L` the number
of source bytes before the first terminator among the first `sz`, and `c_str()` read up to
its first terminator is the first `min(L, SIZE - 1)` source bytes (the part of C6 that the
code satisfies). -/
theorem ctor_eq (SIZE : Nat) (garbage str : List Nat) (sz : Nat)
    (h1 : 1 ≤ SIZE) (h255 : SIZE ≤ 255) (hg : garbage.length = SIZE) (hsz : sz ≤ str.length)
    (hm : SIZE - 1 - min (((str.take sz).takeWhile (fun c => c != 0)).length) (SIZE - 1)
      ≤ 127) :
    ∃ d, ctor SIZE garbage str sz = some d ∧
      size SIZE d = min (((str.take sz).takeWhile (fun c => c != 0)).length) (SIZE - 1) ∧
      d.takeWhile (fun c => c != 0)
        = str.take (min (((str.take sz).takeWhile (fun c => c != 0)).length) (SIZE - 1)) ∧
      content SIZE d = d.takeWhile (fun c => c != 0) := by
  generalize hL : ((str.take sz).takeWhile (fun c => c != 0)).length = L at hm ⊢
  have hLsz : L ≤ sz := by
    rw [← hL]
    calc _ ≤ (str.take sz).length := length_takeWhile_le_length _ _
      _ ≤ sz := List.length_take_le _ _
  have hpre : str.take L = (str.take sz).takeWhile (fun c => c != 0) := by
    have h2 : (str.take sz).take L = (str.take sz).takeWhile (fun c => c != 0) := by
      rw [← hL, take_length_takeWhile]
    rw [← h2, List.take_take, Nat.min_eq_left hLsz]
  have hnz : ∀ x ∈ str.take (min L (SIZE - 1)), x ≠ 0 := by
    intro x hx
    have hx2 : x ∈ str.take L := by
      have : str.take (min L (SIZE - 1)) = (str.take L).take (min L (SIZE - 1)) := by
        rw [List.take_take]; congr 1; omega
      rw [this] at hx
      exact List.mem_of_mem_take hx
    rw [hpre] at hx2
    exact mem_takeWhile_ne_zero _ x hx2
  have ht : (if L < MAX_CHARS SIZE then L else MAX_CHARS SIZE) = min L (SIZE - 1) := by
    unfold MAX_CHARS; split <;> omega
  generalize htt : min L (SIZE - 1) = t at *
  have htM : t ≤ MAX_CHARS SIZE := by unfold MAX_CHARS; omega
  have htl : t ≤ str.length := by omega
  have hlen1 : (List.take 0 garbage ++ List.take t str ++ List.drop (0 + t) garbage).length
      = SIZE := by
    simp; omega
  have hctor : ctor SIZE garbage str sz = some
      (((List.take 0 garbage ++ List.take t str ++ List.drop (0 + t) garbage).set
        (MAX_CHARS SIZE) (MAX_CHARS SIZE - t)).set t 0) := by
    unfold ctor
    rw [len_eq str sz hsz, hL, Option.some_bind]
    simp only [ht]
    unfold memcpy
    rw [if_pos ⟨htl, by omega⟩, Option.some_bind]
    exact set_size_unsafe_eq h1 h255 hlen1 htM hm
  refine ⟨_, hctor, ?_⟩
  have hsize := size_set_size h1 h255 hlen1 htM hm
  have htake : (((List.take 0 garbage ++ List.take t str ++ List.drop (0 + t) garbage).set
        (MAX_CHARS SIZE) (MAX_CHARS SIZE - t)).set t 0).take t = str.take t := by
    apply List.ext_getElem?
    intro j
    simp only [List.getElem?_take, List.getElem?_set, List.getElem?_append, List.take_zero,
      List.nil_append, List.length_take]
    by_cases hj : j < t
    · have h3 : t ≠ j := by omega
      have h4 : MAX_CHARS SIZE ≠ j := by omega
      simp [hj, h3, h4]
      intro h5; omega
    · simp [hj]
  have hterm : (((List.take 0 garbage ++ List.take t str ++ List.drop (0 + t) garbage).set
        (MAX_CHARS SIZE) (MAX_CHARS SIZE - t)).set t 0)[t]? = some 0 := by
    rw [List.getElem?_set]; simp; unfold MAX_CHARS at htM; omega
  have htw := takeWhile_of_terminator _ t hterm (by rw [htake]; exact hnz)
  refine ⟨hsize, by rw [htw, htake], ?_⟩
  unfold content
  rw [hsize, htw]

theorem ctor_eq_witness :
    ∃ d, ctor 3 [170, 170, 170] [105, 110, 112, 117, 116] 5 = some d ∧
      size 3 d = min ((([105, 110, 112, 117, 116].take 5).takeWhile
        (fun c => c != 0)).length) (3 - 1) ∧
      d.takeWhile (fun c => c != 0)
        = [105, 110, 112, 117, 116].take (min ((([105, 110, 112, 117, 116].take 5).takeWhile
            (fun c => c != 0)).length) (3 - 1)) ∧
      content 3 d = d.takeWhile (fun c => c != 0) :=
  ctor_eq 3 [170, 170, 170] [105, 110, 112, 117, 116] 5
    (by decide) (by decide) (by decide) (by decide) (by decide)

/-- C6: Str<200>("abc", 3) finds L = 3, copies the three bytes and stores the marker 196 = 199 - 3; available() reads it back through the signed char as -60, so size() is 199 + 60 = 259 instead of min(3, 199) = 3, and the terminator is written to index 259, outside the 200-byte storage: the constructor has no defined result -/
theorem C6_ctor_marker_sign_extended :
    (List.replicate 200 170).length = 200 ∧ 3 ≤ [97, 98, 99].length ∧
      len [97, 98, 99] 3 = some 3 ∧ min 3 (200 - 1) = 3 ∧
      memcpy (List.replicate 200 170) 0 [97, 98, 99] 3
        = some ([97, 98, 99] ++ List.replicate 197 170) ∧
      memWrite ([97, 98, 99] ++ List.replicate 197 170) (MAX_CHARS 200)
          (subSz (MAX_CHARS 200) (to_uint8 3) % 256)
        = some ([97, 98, 99] ++ List.replicate 196 170 ++ [196]) ∧
      to_int8 196 = -60 ∧
      available 200 ([97, 98, 99] ++ List.replicate 196 170 ++ [196])
        = 18446744073709551556 ∧
      size 200 ([97, 98, 99] ++ List.replicate 196 170 ++ [196]) = 259 ∧
      memWrite ([97, 98, 99] ++ List.replicate 196 170 ++ [196]) 259 0 = none ∧
      ctor 200 (List.replicate 200 170) [97, 98, 99] 3 = none :=
  ⟨by decide, by decide, by decide, by decide, by decide, by decide, by decide, by decide,
    by decide, by decide, by decide⟩

theorem addSz_eq (a b : Nat) (h : a + b < 2 ^ 64) : addSz a b = a + b := by
  unfold addSz SIZE_T_RANGE; omega

theorem insert_shift_spec (count bound : Nat) (hb : 1 ≤ bound) (hc : count ≤ bound) :
    ∀ (i : Nat) (d : List Nat), i < d.length → i < 2 ^ 64 →
      ∃ d', insert_shift count bound i d = some d' ∧ d'.length = d.length ∧
        ∀ j, d'[j]? = if bound ≤ j ∧ j ≤ i then d[j - count]? else d[j]?
  | 0, d, _, _ => by
    refine ⟨d, ?_, rfl, ?_⟩
    · unfold insert_shift; rw [if_pos (by omega)]
    · intro j; rw [if_neg (by omega)]
  | i + 1, d, hi, hi64 => by
    unfold insert_shift
    by_cases hlt : i + 1 < bound
    · rw [if_pos hlt]
      refine ⟨d, rfl, rfl, ?_⟩
      intro j; rw [if_neg (by omega)]
    · rw [if_neg hlt]
      have hsub : subSz (i + 1) count = i + 1 - count := subSz_eq _ _ (by omega) hi64
      have hrd : i + 1 - count < d.length := by omega
      rw [hsub]
      unfold memRead memWrite
      rw [List.getElem?_eq_getElem hrd, Option.some_bind, if_pos hi, Option.some_bind]
      obtain ⟨d', h1, h2, h3⟩ := insert_shift_spec count bound hb hc i
        (d.set (i + 1) d[i + 1 - count]) (by simp; omega) (by omega)
      refine ⟨d', h1, by simpa using h2, ?_⟩
      intro j
      rw [h3 j]
      by_cases hj1 : j = i + 1
      · subst hj1
        rw [if_neg (by omega), if_pos (by omega), List.getElem?_set]
        simp [hi, List.getElem?_eq_getElem hrd]
      · by_cases hj2 : bound ≤ j ∧ j ≤ i
        · rw [if_pos hj2, if_pos (by omega), List.getElem?_set_ne (by omega)]
        · rw [if_neg hj2, if_neg (by omega), List.getElem?_set_ne (by omega)]

theorem insert_fill_spec (SIZE index fill : Nat) (hS : SIZE ≤ 255) :
    ∀ (r i : Nat) (d : List Nat), MAX_CHARS SIZE < d.length → index + i < 2 ^ 64 →
      ∃ d', insert_fill SIZE index fill r i d = some d' ∧ d'.length = d.length ∧
        ∀ j, d'[j]? = if index + i ≤ j ∧ j < index + i + r ∧ j < MAX_CHARS SIZE
          then some fill else d[j]?
  | 0, i, d, _, _ => by
    refine ⟨d, rfl, rfl, ?_⟩
    intro j; rw [if_neg (by omega)]
  | r + 1, i, d, hM, h64 => by
    unfold insert_fill
    rw [addSz_eq _ _ h64]
    by_cases hlt : index + i < MAX_CHARS SIZE
    · rw [if_pos hlt]
      unfold memWrite
      rw [if_pos (by omega), Option.some_bind]
      have hM2 : MAX_CHARS SIZE ≤ 254 := by unfold MAX_CHARS; omega
      obtain ⟨d', h1, h2, h3⟩ := insert_fill_spec SIZE index fill hS r (i + 1)
        (d.set (index + i) fill) (by simpa using hM) (by omega)
      refine ⟨d', h1, by simpa using h2, ?_⟩
      intro j
      rw [h3 j]
      by_cases hj1 : j = index + i
      · subst hj1
        rw [if_neg (by omega), if_pos (by omega), List.getElem?_set]
        simp; omega
      · by_cases hj2 : index + (i + 1) ≤ j ∧ j < index + (i + 1) + r ∧ j < MAX_CHARS SIZE
        · rw [if_pos hj2, if_pos (by omega)]
        · rw [if_neg hj2, if_neg (by omega), List.getElem?_set_ne (by omega)]
    · rw [if_neg hlt]
      refine ⟨d, rfl, rfl, ?_⟩
      intro j; rw [if_neg (by omega)]

theorem Inv_facts {SIZE : Nat} {d : List Nat} (h : Inv SIZE d) :
    d.length = SIZE ∧ size SIZE d ≤ MAX_CHARS SIZE ∧ d[size SIZE d]? = some 0 := h

theorem insert_eq {SIZE : Nat} {d : List Nat} {p count c : Nat}
    (h1 : 1 ≤ SIZE) (h255 : SIZE ≤ 255) (hinv : Inv SIZE d)
    (hp : p ≤ size SIZE d) (hc : 1 ≤ count) (hno : size SIZE d + count < 2 ^ 64) :
    ∃ d', insert SIZE p count c d = some d' ∧
      size SIZE d' = min (size SIZE d + count) (SIZE - 1) ∧
      content SIZE d' = ((content SIZE d).take p ++ List.replicate count c
        ++ (content SIZE d).drop p).take (SIZE - 1) := by
  obtain ⟨hlen, hsz, hterm⟩ := Inv_facts hinv
  have hmk := (available_of_Inv h255 hinv).2
  unfold content
  generalize hL : size SIZE d = L at *
  have hM : MAX_CHARS SIZE = SIZE - 1 := rfl
  have ht : (if addSz L count < MAX_CHARS SIZE then addSz L count else MAX_CHARS SIZE)
      = min (L + count) (SIZE - 1) := by
    rw [addSz_eq _ _ hno, hM]; split <;> omega
  generalize htt : min (L + count) (SIZE - 1) = t at *
  have htM : t ≤ MAX_CHARS SIZE := by rw [hM]; omega
  obtain ⟨d1, e1, l1, g1⟩ := insert_shift_spec count (p + count) (by omega) (by omega) t d
    (by omega) (by omega)
  obtain ⟨d2, e2, l2, g2⟩ := insert_fill_spec SIZE p c h255 count 0 d1 (by omega) (by omega)
  have hlen2 : d2.length = SIZE := by omega
  have hins : insert SIZE p count c d
      = some ((d2.set (MAX_CHARS SIZE) (MAX_CHARS SIZE - t)).set t 0) := by
    unfold insert
    simp only [hL, ht]
    rw [addSz_eq _ _ (by omega), e1, Option.some_bind, e2, Option.some_bind]
    exact set_size_unsafe_eq h1 h255 hlen2 htM (by omega)
  refine ⟨_, hins, ?_⟩
  have hsize := size_set_size h1 h255 hlen2 htM (by omega)
  refine ⟨hsize, ?_⟩
  rw [hsize]
  apply List.ext_getElem?
  intro j
  simp only [List.getElem?_take, List.getElem?_set, List.getElem?_append, List.getElem?_drop,
    List.getElem?_replicate, List.length_take, List.length_append, List.length_replicate,
    g2, g1]
  have hno2 : L + count < 18446744073709551616 := by omega
  have hmin : min p (min L d.length) = p := by unfold MAX_CHARS at hsz; omega
  rw [hmin]
  clear hno ht e1 e2 hins hsize hinv g1 g2 hterm hmk
  unfold MAX_CHARS at *
  repeat' (split <;> try (exfalso; omega))
  all_goals first | rfl | (congr 1; omega)

/-- C2 (amended): for a buffer with content s of length len, an index p <= len and a count >= 1 whose sum len + count does not wrap size_t, insert(p, count, c) returns, size() becomes min(len + count, SIZE - 1) and the content becomes the first SIZE - 1 characters of s[0..p) ++ c repeated count times ++ s[p..len); this holds for every SIZE <= 255, because the marker of a buffer with size() <= capacity() is at most 127 and an insert only lowers it -/
theorem C2_insert_fill_keeps_leading_drops_trailing (SIZE : Nat) (d : List Nat)
    (p count c : Nat) (h1 : 1 ≤ SIZE) (h255 : SIZE ≤ 255) (hinv : Inv SIZE d)
    (hp : p ≤ size SIZE d) (hc : 1 ≤ count) (hno : size SIZE d + count < 2 ^ 64) :
    ∃ d', insert SIZE p count c d = some d' ∧
      size SIZE d' = min (size SIZE d + count) (SIZE - 1) ∧
      content SIZE d' = ((content SIZE d).take p ++ List.replicate count c
        ++ (content SIZE d).drop p).take (SIZE - 1) :=
  insert_eq h1 h255 hinv hp hc hno

theorem C2_witness :
    (∃ d', insert 5 0 1 48 [49, 50, 51, 52, 0] = some d' ∧
      size 5 d' = min (size 5 [49, 50, 51, 52, 0] + 1) (5 - 1) ∧
      content 5 d' = ((content 5 [49, 50, 51, 52, 0]).take 0 ++ List.replicate 1 48
        ++ (content 5 [49, 50, 51, 52, 0]).drop 0).take (5 - 1)) ∧
    (∃ d', insert 200 10 100 120
          (List.replicate 150 65 ++ [0] ++ List.replicate 48 170 ++ [49]) = some d' ∧
      size 200 d' = min (size 200
          (List.replicate 150 65 ++ [0] ++ List.replicate 48 170 ++ [49]) + 100) (200 - 1) ∧
      content 200 d' = ((content 200
            (List.replicate 150 65 ++ [0] ++ List.replicate 48 170 ++ [49])).take 10
          ++ List.replicate 100 120
          ++ (content 200
            (List.replicate 150 65 ++ [0] ++ List.replicate 48 170 ++ [49])).drop 10).take
          (200 - 1)) :=
  ⟨C2_insert_fill_keeps_leading_drops_trailing 5 [49, 50, 51, 52, 0] 0 1 48
      (by decide) (by decide) ⟨by decide, by decide, by decide⟩ (by decide) (by decide)
      (by decide),
    C2_insert_fill_keeps_leading_drops_trailing 200
      (List.replicate 150 65 ++ [0] ++ List.replicate 48 170 ++ [49]) 10 100 120
      (by decide) (by decide) ⟨by decide, by decide, by decide⟩ (by decide) (by decide)
      (by decide)⟩

/-- C2 counterexample: on the Str<5> holding "a", insert(0, SIZE_MAX, 'x') computes size() + count = 0 in size_t, fills four bytes and then sets the size to 0 instead of min(len + count, 4) = 4 -/
theorem C2_counterexample_count_wraps :
    Inv 5 [97, 0, 170, 170, 3] ∧ 0 ≤ size 5 [97, 0, 170, 170, 3] ∧
      1 ≤ 18446744073709551615 ∧
      insert 5 0 18446744073709551615 120 [97, 0, 170, 170, 3] = some [0, 120, 120, 120, 4] ∧
      size 5 [0, 120, 120, 120, 4] = 0 ∧
      min (size 5 [97, 0, 170, 170, 3] + 18446744073709551615) (5 - 1) = 4 ∧
      content 5 [0, 120, 120, 120, 4] = [] :=
  ⟨⟨by decide, by decide, by decide⟩, by decide, by decide, by decide, by decide, by decide,
    by decide⟩

/-- C3: insert(1, "ab", 2) on the Str<12> holding "123456789\n" moves nine bytes to position 3, which overwrites the marker byte with '\n'; the size read back is 1 and the call leaves content "1ab" of size 3 instead of "1ab23456789"; insert(0, "abcdef", 6) on the Str<10> holding "12345" computes move_size = 5 - 6 in size_t and does not return -/
theorem C3_insert_n_loses_tail :
    Inv 12 [49, 50, 51, 52, 53, 54, 55, 56, 57, 10, 0, 1] ∧
      insert_n 12 1 [97, 98] 2 [49, 50, 51, 52, 53, 54, 55, 56, 57, 10, 0, 1]
        = some [49, 97, 98, 0, 51, 52, 53, 54, 55, 56, 57, 8] ∧
      content 12 [49, 97, 98, 0, 51, 52, 53, 54, 55, 56, 57, 8] = [49, 97, 98] ∧
      ((content 12 [49, 50, 51, 52, 53, 54, 55, 56, 57, 10, 0, 1]).take 1 ++ [97, 98]
        ++ (content 12 [49, 50, 51, 52, 53, 54, 55, 56, 57, 10, 0, 1]).drop 1).take (12 - 1)
        = [49, 97, 98, 50, 51, 52, 53, 54, 55, 56, 57] ∧
      Inv 10 [49, 50, 51, 52, 53, 0, 170, 170, 170, 4] ∧
      insert_n 10 0 [97, 98, 99, 100, 101, 102] 6 [49, 50, 51, 52, 53, 0, 170, 170, 170, 4]
        = none :=
  ⟨⟨by decide, by decide, by decide⟩, by decide, by decide, by decide,
    ⟨by decide, by decide, by decide⟩, by decide⟩

/-- C4: insert(1, "XY", 2) on the Str<5> holding "ab\x03" (length 3) overwrites the marker byte with the content byte 3, reads size() back as 1 and ends with size() == 3, not min(3 + 2, 4) = 4 -/
theorem C4_insert_n_wrong_size :
    Inv 5 [97, 98, 3, 0, 1] ∧ size 5 [97, 98, 3, 0, 1] = 3 ∧
      insert_n 5 1 [88, 89] 2 [97, 98, 3, 0, 1] = some [97, 88, 89, 0, 1] ∧
      size 5 [97, 88, 89, 0, 1] = 3 ∧
      min (size 5 [97, 98, 3, 0, 1] + 2) (5 - 1) = 4 :=
  ⟨⟨by decide, by decide, by decide⟩, by decide, by decide, by decide, by decide⟩

/-- C5: erase(0, 1), which is erase(0, size()), on the Str<129> holding "a" moves the terminator to index 0 and calls modify_size(-1); that computes the new size 0 and stores the marker 128 = 128 - 0, which available() reads back through the signed char as -128, so size() is 256 instead of 0 and the terminator is written to index 256, outside the storage: the call has no defined result where the claim promises an empty buffer with size() == 0 -/
theorem C5_erase_all_marker_sign_extended :
    Inv 129 ([97, 0] ++ List.replicate 126 170 ++ [127]) ∧
      size 129 ([97, 0] ++ List.replicate 126 170 ++ [127]) = 1 ∧
      content 129 ([97, 0] ++ List.replicate 126 170 ++ [127]) = [97] ∧
      erase_erase_point 129 0 ([97, 0] ++ List.replicate 126 170 ++ [127]) = 0 ∧
      erase_erase_size 129 0 1 ([97, 0] ++ List.replicate 126 170 ++ [127]) = 1 ∧
      memmove ([97, 0] ++ List.replicate 126 170 ++ [127]) 0 1 1
        = some ([0, 0] ++ List.replicate 126 170 ++ [127]) ∧
      to_uint8 (addSz (size 129 ([0, 0] ++ List.replicate 126 170 ++ [127]))
        (int_to_size_t (to_int8 (negSz 1)))) = 0 ∧
      memWrite ([0, 0] ++ List.replicate 126 170 ++ [127]) (MAX_CHARS 129)
          (subSz (MAX_CHARS 129) (to_uint8 0) % 256)
        = some ([0, 0] ++ List.replicate 126 170 ++ [128]) ∧
      size 129 ([0, 0] ++ List.replicate 126 170 ++ [128]) = 256 ∧
      memWrite ([0, 0] ++ List.replicate 126 170 ++ [128]) 256 0 = none ∧
      erase 129 0 1 ([97, 0] ++ List.replicate 126 170 ++ [127]) = none :=
  ⟨⟨by decide, by decide, by decide⟩, by decide, by decide, by decide, by decide, by decide,
    by decide, by decide, by decide, by decide, by decide⟩

/-- C7: insert(0, 0, 'X') on the Str<5> holding "ab" does not return: with index + count = 0 the loop condition i >= 0 always holds, i wraps below zero and the body indexes outside the storage -/
theorem C7_insert_zero_count_at_index_zero :
    Inv 5 [97, 98, 0, 170, 2] ∧ insert 5 0 0 88 [97, 98, 0, 170, 2] = none ∧
      insert_shift 0 0 2 [97, 98, 0, 170, 2] = none :=
  ⟨⟨by decide, by decide, by decide⟩, by decide, by decide⟩

/-- C8: erase(3, 1) on the Str<5> holding "ab" (length 2, index past the end) computes size() - index = SIZE_MAX in size_t and hands it to memmove as the length: the call is undefined where the claim promises a no-op -/
theorem C8_erase_index_past_end :
    Inv 5 [97, 98, 0, 170, 2] ∧ size 5 [97, 98, 0, 170, 2] = 2 ∧
      subSz (size 5 [97, 98, 0, 170, 2]) 3 = 18446744073709551615 ∧
      erase 5 3 1 [97, 98, 0, 170, 2] = none ∧
      erase 5 3 0 [97, 98, 0, 170, 2] = none :=
  ⟨⟨by decide, by decide, by decide⟩, by decide, by decide, by decide, by decide⟩

/-- C9: insert(10, 1, 'X') on the non-full Str<5> holding "ab" writes no character but still sets the size to 3, so size() and the content ("ab" followed by the old terminator byte) change -/
theorem C9_insert_beyond_max_grows_size :
    Inv 5 [97, 98, 0, 170, 2] ∧ 10 > MAX_CHARS 5 ∧
      insert 5 10 1 88 [97, 98, 0, 170, 2] = some [97, 98, 0, 0, 1] ∧
      size 5 [97, 98, 0, 170, 2] = 2 ∧ size 5 [97, 98, 0, 0, 1] = 3 ∧
      content 5 [97, 98, 0, 170, 2] = [97, 98] ∧ content 5 [97, 98, 0, 0, 1] = [97, 98, 0] :=
  ⟨⟨by decide, by decide, by decide⟩, by decide, by decide, by decide, by decide, by decide,
    by decide⟩

theorem set_eq_self_of_getElem? {l : List Nat} {i v : Nat} (h : l[i]? = some v) :
    l.set i v = l := by
  apply List.ext_getElem?
  intro j
  rw [List.getElem?_set]
  split
  · rename_i hij
    subst hij
    have hi : i < l.length := by
      by_contra hc
      rw [List.getElem?_eq_none (by omega)] at h; simp at h
    rw [if_pos hi, h]
  · rfl

theorem marker_of_Inv {SIZE : Nat} {d : List Nat} (h1 : 1 ≤ SIZE) (h255 : SIZE ≤ 255)
    (hinv : Inv SIZE d) (hb : Bytes d) :
    d[MAX_CHARS SIZE]? = some (MAX_CHARS SIZE - size SIZE d) ∧
      available SIZE d = MAX_CHARS SIZE - size SIZE d := by
  obtain ⟨hlen, hsz, _⟩ := Inv_facts hinv
  have hM : MAX_CHARS SIZE < d.length := by unfold MAX_CHARS; omega
  have hM254 : MAX_CHARS SIZE ≤ 254 := by unfold MAX_CHARS; omega
  have hv256 : d[MAX_CHARS SIZE] < 256 := hb _ (List.getElem_mem hM)
  have hav : available SIZE d = char_to_size_t d[MAX_CHARS SIZE] := by
    unfold available
    rw [List.getD_eq_getElem?_getD, List.getElem?_eq_getElem hM]; rfl
  have hsize : size SIZE d = subSz (MAX_CHARS SIZE) (char_to_size_t d[MAX_CHARS SIZE]) := by
    unfold size max_size
    rw [hav]
  rw [hsize] at hsz
  obtain ⟨a, b, c, e⟩ := subSz_char_facts hM254 hv256 hsz
  rw [hav, hsize, e, c, List.getElem?_eq_getElem hM]
  refine ⟨?_, by omega⟩
  congr 1; omega

theorem set_size_unsafe_noop {SIZE : Nat} {d : List Nat} (h1 : 1 ≤ SIZE) (h255 : SIZE ≤ 255)
    (hinv : Inv SIZE d) (hb : Bytes d) :
    set_size_unsafe SIZE (size SIZE d) d = some d := by
  obtain ⟨hlen, hsz, hterm⟩ := Inv_facts hinv
  rw [set_size_unsafe_eq h1 h255 hlen hsz (available_of_Inv h255 hinv).2,
    set_eq_self_of_getElem? (marker_of_Inv h1 h255 hinv hb).1, set_eq_self_of_getElem? hterm]

theorem insert_shift_zero_count (bound : Nat) (hb : 1 ≤ bound) :
    ∀ (i : Nat) (d : List Nat), i < d.length → i < 2 ^ 64 →
      insert_shift 0 bound i d = some d
  | 0, d, _, _ => by unfold insert_shift; rw [if_pos (by omega)]
  | i + 1, d, hi, h64 => by
    unfold insert_shift
    split
    · rfl
    · have hsub : subSz (i + 1) 0 = i + 1 := by unfold subSz SIZE_T_RANGE; omega
      rw [hsub]
      unfold memRead memWrite
      rw [List.getElem?_eq_getElem hi, Option.some_bind, if_pos hi, Option.some_bind,
        set_eq_self_of_getElem? (List.getElem?_eq_getElem hi)]
      exact insert_shift_zero_count bound hb i d (by omega) (by omega)

/-- Inserting zero characters at an index other than 0 returns and leaves every storage
byte unchanged (the part of C7 that the code satisfies). -/
theorem insert_zero_count_noop (SIZE : Nat) (d : List Nat) (index fill : Nat)
    (h1 : 1 ≤ SIZE) (h255 : SIZE ≤ 255) (hinv : Inv SIZE d) (hb : Bytes d)
    (hidx : 1 ≤ index) (hidx64 : index < 2 ^ 64) :
    insert SIZE index 0 fill d = some d := by
  obtain ⟨hlen, hsz, hterm⟩ := Inv_facts hinv
  have hM : MAX_CHARS SIZE = SIZE - 1 := rfl
  have ha : addSz (size SIZE d) 0 = size SIZE d := addSz_eq _ _ (by omega)
  have ht : (if size SIZE d < MAX_CHARS SIZE then size SIZE d else MAX_CHARS SIZE)
      = size SIZE d := by split <;> omega
  unfold insert
  simp only [ha, ht]
  rw [addSz_eq _ _ (by omega), Nat.add_zero,
    insert_shift_zero_count index hidx (size SIZE d) d (by omega) (by omega),
    Option.some_bind]
  unfold insert_fill
  rw [Option.some_bind]
  exact set_size_unsafe_noop h1 h255 hinv hb

theorem insert_zero_count_noop_witness :
    insert 10 5 0 88 [49, 48, 48, 48, 53, 48, 48, 56, 48, 0]
      = some [49, 48, 48, 48, 53, 48, 48, 56, 48, 0] :=
  insert_zero_count_noop 10 [49, 48, 48, 48, 53, 48, 48, 56, 48, 0] 5 88 (by decide)
    (by decide) ⟨by decide, by decide, by decide⟩ (by unfold Bytes; decide) (by decide)
    (by decide)

/-- On a full buffer an insert at an index beyond MAX_CHARS returns and changes nothing,
as long as neither `size() + count` nor `index + count` wraps (the part of C9 that the
code satisfies). -/
theorem insert_beyond_max_full_noop (SIZE : Nat) (d : List Nat) (index count fill : Nat)
    (h1 : 1 ≤ SIZE) (h255 : SIZE ≤ 255) (hinv : Inv SIZE d) (hb : Bytes d)
    (hfull : size SIZE d = MAX_CHARS SIZE) (hidx : MAX_CHARS SIZE < index)
    (hno : index + count < 2 ^ 64) :
    insert SIZE index count fill d = some d := by
  obtain ⟨hlen, hsz, hterm⟩ := Inv_facts hinv
  have hM : MAX_CHARS SIZE = SIZE - 1 := rfl
  have ha : addSz (size SIZE d) count = size SIZE d + count := addSz_eq _ _ (by omega)
  have ht : (if size SIZE d + count < MAX_CHARS SIZE then size SIZE d + count
      else MAX_CHARS SIZE) = size SIZE d := by split <;> omega
  have hshift : insert_shift count (index + count) (size SIZE d) d = some d := by
    cases hs : size SIZE d with
    | zero => unfold insert_shift; rw [if_pos (by omega)]
    | succ n => unfold insert_shift; rw [if_pos (by omega)]
  have hfill : insert_fill SIZE index fill count 0 d = some d := by
    cases count with
    | zero => rfl
    | succ n =>
      unfold insert_fill
      rw [addSz_eq _ _ (by omega), if_neg (by omega)]
  unfold insert
  simp only [ha, ht]
  rw [addSz_eq _ _ hno, hshift, Option.some_bind, hfill, Option.some_bind]
  exact set_size_unsafe_noop h1 h255 hinv hb

theorem insert_beyond_max_full_noop_witness :
    insert 5 10 10 88 [48, 49, 49, 49, 0] = some [48, 49, 49, 49, 0] :=
  insert_beyond_max_full_noop 5 [48, 49, 49, 49, 0] 10 10 88 (by decide) (by decide)
    ⟨by decide, by decide, by decide⟩ (by unfold Bytes; decide) (by decide) (by decide)
    (by decide)

theorem memmove_getElem? {a a' : List Nat} {dst src n : Nat}
    (h : memmove a dst src n = some a') (j : Nat) :
    a'[j]? = if dst ≤ j ∧ j < dst + n then a[src + (j - dst)]? else a[j]? := by
  obtain ⟨⟨h1, h2⟩, rfl⟩ := memmove_some h
  simp only [List.getElem?_append, List.getElem?_take, List.getElem?_drop,
    List.length_append, List.length_take, List.length_drop]
  repeat' (split <;> try (exfalso; omega))
  all_goals first | rfl | (congr 1; omega)

theorem memcpy_getElem? {a a' str : List Nat} {dst n : Nat}
    (h : memcpy a dst str n = some a') (j : Nat) :
    a'[j]? = if dst ≤ j ∧ j < dst + n then str[j - dst]? else a[j]? := by
  obtain ⟨⟨h1, h2⟩, rfl⟩ := memcpy_some h
  simp only [List.getElem?_append, List.getElem?_take, List.getElem?_drop,
    List.length_append, List.length_take, List.length_drop]
  repeat' (split <;> try (exfalso; omega))
  all_goals first | rfl | (congr 1; omega)

theorem memmove_ok (a : List Nat) (dst src n : Nat) (h1 : src + n ≤ a.length)
    (h2 : dst + n ≤ a.length) : ∃ a', memmove a dst src n = some a' := by
  unfold memmove; rw [if_pos ⟨h1, h2⟩]; exact ⟨_, rfl⟩

theorem memcpy_ok (a str : List Nat) (dst n : Nat) (h1 : n ≤ str.length)
    (h2 : dst + n ≤ a.length) : ∃ a', memcpy a dst str n = some a' := by
  unfold memcpy; rw [if_pos ⟨h1, h2⟩]; exact ⟨_, rfl⟩

theorem minimum_eq_min (a b : Nat) : minimum a b = min a b := by
  unfold minimum; split <;> omega

theorem set_size_unsafe_to_uint8 (SIZE sz : Nat) (d : List Nat) :
    set_size_unsafe SIZE sz d = set_size_unsafe SIZE (to_uint8 sz) d := by
  unfold set_size_unsafe to_uint8
  rw [Nat.mod_mod]

theorem modify_size_neg_arith (len k : Nat) (hk : k ≤ len) (hlen : len ≤ 254) :
    to_uint8 (addSz len (int_to_size_t (to_int8 (negSz k)))) = len - k := by
  unfold to_uint8 addSz int_to_size_t to_int8 negSz subSz SIZE_T_RANGE
  split <;> omega

theorem size_eq_of_marker {SIZE : Nat} {d d' : List Nat}
    (h : d'[MAX_CHARS SIZE]? = d[MAX_CHARS SIZE]?) : size SIZE d' = size SIZE d := by
  unfold size available
  rw [List.getD_eq_getElem?_getD, List.getD_eq_getElem?_getD, h]

/-- An erase inside the content whose move stays inside the storage
(`size() + erase_size <= SIZE`) and whose new marker `SIZE - 1 - (size() - erase_size)` is
at most 127 returns and removes exactly `min(count, size() - index)` characters at `index`
(the part of C5 that the code satisfies). -/
theorem erase_eq (SIZE : Nat) (d : List Nat) (i count : Nat)
    (h1 : 1 ≤ SIZE) (h255 : SIZE ≤ 255) (hinv : Inv SIZE d) (hi : i ≤ size SIZE d)
    (hin : size SIZE d + min count (size SIZE d - i) ≤ SIZE)
    (hm : SIZE - 1 - (size SIZE d - min count (size SIZE d - i)) ≤ 127) :
    ∃ d', erase SIZE i count d = some d' ∧
      size SIZE d' = size SIZE d - min count (size SIZE d - i) ∧
      content SIZE d' = (content SIZE d).take i
        ++ (content SIZE d).drop (i + min count (size SIZE d - i)) ∧
      memRead d' (size SIZE d') = some 0 := by
  obtain ⟨hlen, hsz, hterm⟩ := Inv_facts hinv
  unfold content
  generalize hL : size SIZE d = L at *
  have hM : MAX_CHARS SIZE = SIZE - 1 := rfl
  generalize hk : min count (L - i) = k at *
  have hep : minimum i L = i := by rw [minimum_eq_min]; omega
  have hsub : subSz L i = L - i := subSz_eq _ _ hi (by omega)
  have hes : minimum count (L - i) = k := by rw [minimum_eq_min, hk]
  have hsrc : addSz i k = i + k := addSz_eq _ _ (by omega)
  obtain ⟨d1, hmv⟩ := memmove_ok d i (i + k) (L - i) (by omega) (by omega)
  have hlen1 : d1.length = SIZE := by rw [memmove_length hmv, hlen]
  have hg1 : ∀ j, d1[j]? = if i ≤ j ∧ j < i + (L - i) then d[i + k + (j - i)]? else d[j]? :=
    memmove_getElem? hmv
  have hs1 : size SIZE d1 = L := by
    rw [← hL]
    apply size_eq_of_marker
    rw [hg1, if_neg (by omega)]
  have hkL : k ≤ L := by omega
  have her : erase SIZE i count d
      = some ((d1.set (MAX_CHARS SIZE) (MAX_CHARS SIZE - (L - k))).set (L - k) 0) := by
    unfold erase
    simp only [hL, hep, hsub, hes, hsrc, hmv, Option.some_bind]
    unfold modify_size
    rw [hs1, set_size_unsafe_to_uint8, modify_size_neg_arith L k hkL (by omega)]
    exact set_size_unsafe_eq h1 h255 hlen1 (by omega) (by omega)
  refine ⟨_, her, ?_⟩
  have hsize := @size_set_size SIZE (L - k) d1 h1 h255 hlen1 (by omega) (by omega)
  refine ⟨hsize, ?_, ?_⟩
  · rw [hsize]
    apply List.ext_getElem?
    intro j
    simp only [List.getElem?_take, List.getElem?_set, List.getElem?_append,
      List.getElem?_drop, List.length_take, List.length_set, hg1]
    unfold MAX_CHARS at *
    clear her hmv hes hep hinv hterm hs1 hsize hg1 hsub hsrc hm
    repeat' (split <;> try (exfalso; omega))
    all_goals first | rfl | (congr 1; omega)
  · rw [hsize]; unfold memRead
    rw [List.getElem?_set]; simp; omega

theorem erase_eq_witness :
    ∃ d', erase 11 0 3 [48, 49, 52, 53, 54, 55, 56, 57, 0, 57, 2] = some d' ∧
      size 11 d' = size 11 [48, 49, 52, 53, 54, 55, 56, 57, 0, 57, 2]
        - min 3 (size 11 [48, 49, 52, 53, 54, 55, 56, 57, 0, 57, 2] - 0) ∧
      content 11 d' = (content 11 [48, 49, 52, 53, 54, 55, 56, 57, 0, 57, 2]).take 0
        ++ (content 11 [48, 49, 52, 53, 54, 55, 56, 57, 0, 57, 2]).drop
          (0 + min 3 (size 11 [48, 49, 52, 53, 54, 55, 56, 57, 0, 57, 2] - 0)) ∧
      memRead d' (size 11 d') = some 0 :=
  erase_eq 11 [48, 49, 52, 53, 54, 55, 56, 57, 0, 57, 2] 0 3 (by decide) (by decide)
    ⟨by decide, by decide, by decide⟩ (by decide) (by decide) (by decide)

/-- An erase of zero characters inside the content, and an erase at `index == size()`,
return and change nothing (the part of C8 that the code satisfies). -/
theorem erase_noop (SIZE : Nat) (d : List Nat) (index count : Nat)
    (h1 : 1 ≤ SIZE) (h255 : SIZE ≤ 255) (hinv : Inv SIZE d) (hb : Bytes d)
    (h : (count = 0 ∧ index ≤ size SIZE d) ∨ index = size SIZE d) :
    erase SIZE index count d = some d := by
  obtain ⟨hlen, hsz, hterm⟩ := Inv_facts hinv
  have hM : MAX_CHARS SIZE = SIZE - 1 := rfl
  have hi : index ≤ size SIZE d := by omega
  have hep : minimum index (size SIZE d) = index := by rw [minimum_eq_min]; omega
  have hsub : subSz (size SIZE d) index = size SIZE d - index := subSz_eq _ _ hi (by omega)
  have hes : minimum count (size SIZE d - index) = 0 := by
    rw [minimum_eq_min]; omega
  have hmv : memmove d index index (size SIZE d - index) = some d := by
    unfold memmove; rw [if_pos ⟨by omega, by omega⟩]
    congr 1
    apply List.ext_getElem?
    intro j
    simp only [List.getElem?_append, List.getElem?_take, List.getElem?_drop,
      List.length_append, List.length_take, List.length_drop]
    repeat' (split <;> try (exfalso; omega))
    all_goals first | rfl | (congr 1; omega)
  have har : to_uint8 (addSz (size SIZE d) (int_to_size_t (to_int8 (negSz 0)))) = size SIZE d := by
    have := modify_size_neg_arith (size SIZE d) 0 (by omega) (by omega)
    simpa using this
  unfold erase
  simp only [hep, hsub, hes, addSz_eq index 0 (by omega), Nat.add_zero, hmv, Option.some_bind]
  unfold modify_size
  rw [set_size_unsafe_to_uint8, har]
  exact set_size_unsafe_noop h1 h255 hinv hb

theorem erase_noop_witness :
    erase 11 5 0 [48, 49, 50, 51, 52, 53, 54, 55, 56, 57, 0]
      = some [48, 49, 50, 51, 52, 53, 54, 55, 56, 57, 0] :=
  erase_noop 11 [48, 49, 50, 51, 52, 53, 54, 55, 56, 57, 0] 5 0 (by decide) (by decide)
    ⟨by decide, by decide, by decide⟩ (by unfold Bytes; decide) (Or.inl ⟨rfl, by decide⟩)

theorem take_set_set (l : List Nat) (M t v w : Nat) (h : t ≤ M) :
    ((l.set M v).set t w).take t = l.take t := by
  apply List.ext_getElem?
  intro j
  simp only [List.getElem?_take]
  by_cases hj : j < t
  · rw [if_pos hj, if_pos hj, List.getElem?_set_ne (by omega), List.getElem?_set_ne (by omega)]
  · rw [if_neg hj, if_neg hj]

/-- Pointwise description of the content claimed for an insert of `n` source bytes at
`p` into a content of length `L` stored in `d`. -/
theorem inserted_getElem? (d str : List Nat) (L p n j : Nat) (hp : p ≤ L) (hL : L ≤ d.length)
    (hn : n ≤ str.length) :
    ((d.take L).take p ++ str.take n ++ (d.take L).drop p)[j]?
      = if j < p then d[j]? else if j < p + n then str[j - p]?
        else if j < L + n then d[j - n]? else none := by
  have e1 : (d.take L).take p = d.take p := by rw [List.take_take, Nat.min_eq_left hp]
  have l1 : (d.take p).length = p := by rw [List.length_take]; omega
  have l2 : (str.take n).length = n := by rw [List.length_take]; omega
  rw [e1, List.append_assoc]
  by_cases h1 : j < p
  · rw [if_pos h1, List.getElem?_append_left (by omega), List.getElem?_take_of_lt h1]
  · rw [if_neg h1, List.getElem?_append_right (by omega), l1]
    by_cases h2 : j < p + n
    · rw [if_pos h2, List.getElem?_append_left (by omega), List.getElem?_take_of_lt (by omega)]
    · rw [if_neg h2, List.getElem?_append_right (by omega), l2, List.getElem?_drop,
        List.getElem?_take]
      by_cases h3 : j < L + n
      · rw [if_pos h3, if_pos (by omega)]; congr 1; omega
      · rw [if_neg h3, if_neg (by omega)]

theorem insert_n_core (SIZE : Nat) (d str : List Nat) (index count L p n : Nat)
    (h1 : 1 ≤ SIZE) (h255 : SIZE ≤ 255) (hlen : d.length = SIZE) (hL : size SIZE d = L)
    (hp : min index L = p) (hn : min count (SIZE - 1 - p) = n)
    (hfit : L + n ≤ SIZE - 1) (hsrc : n ≤ str.length) (hmk : SIZE - 1 - L ≤ 127) :
    ∃ d', insert_n SIZE index str count d = some d' ∧ size SIZE d' = L + n ∧
      d'.take (L + n) = (d.take L).take p ++ str.take n ++ (d.take L).drop p := by
  have hM : MAX_CHARS SIZE = SIZE - 1 := rfl
  have hpL : p ≤ L := by omega
  have hip : minimum index L = p := by rw [minimum_eq_min, hp]
  have hsubM : subSz (MAX_CHARS SIZE) p = SIZE - 1 - p := by
    rw [subSz_eq _ _ (by omega) (by omega), hM]
  have his : minimum count (SIZE - 1 - p) = n := by rw [minimum_eq_min, hn]
  have hsubL : subSz L p = L - p := subSz_eq _ _ hpL (by omega)
  have hadd1 : addSz (L - p) n = L - p + n := addSz_eq _ _ (by omega)
  have hadd2 : addSz p n = p + n := addSz_eq _ _ (by omega)
  obtain ⟨d1, hmv⟩ := memmove_ok d (p + n) p (L - p) (by omega) (by omega)
  have hlen1 : d1.length = SIZE := by rw [memmove_length hmv, hlen]
  obtain ⟨d2, hcp⟩ := memcpy_ok d1 str p n (by omega) (by omega)
  have hlen2 : d2.length = SIZE := by rw [memcpy_length hcp, hlen1]
  have hg2 : ∀ j, d2[j]? = if j < p then d[j]? else if j < p + n then str[j - p]?
      else if j < L + n then d[j - n]? else d[j]? := by
    intro j
    rw [memcpy_getElem? hcp, memmove_getElem? hmv]
    by_cases c1 : j < p
    · rw [if_neg (by omega), if_neg (by omega), if_pos c1]
    · rw [if_neg c1]
      by_cases c2 : j < p + n
      · rw [if_pos (by omega), if_pos c2]
      · rw [if_neg (by omega), if_neg c2]
        by_cases c3 : j < L + n
        · rw [if_pos (by omega), if_pos c3]; congr 1; omega
        · rw [if_neg (by omega), if_neg c3]
  have hs2 : size SIZE d2 = L := by
    rw [← hL]
    apply size_eq_of_marker
    rw [hg2, if_neg (by omega), if_neg (by omega), if_neg (by omega)]
  have hadd3 : addSz L n = L + n := addSz_eq _ _ (by omega)
  have happ : minimum (L + n) (MAX_CHARS SIZE) = L + n := by rw [minimum_eq_min]; omega
  have hins : insert_n SIZE index str count d
      = some ((d2.set (MAX_CHARS SIZE) (MAX_CHARS SIZE - (L + n))).set (L + n) 0) := by
    unfold insert_n
    simp only [hL, hip, hsubM, his, hsubL, hadd1, hadd2]
    rw [if_neg (by omega), hmv, Option.some_bind, hcp, Option.some_bind]
    simp only [hs2, hadd3, happ]
    exact set_size_unsafe_eq h1 h255 hlen2 (by omega) (by omega)
  refine ⟨_, hins, @size_set_size SIZE (L + n) d2 h1 h255 hlen2 (by omega) (by omega), ?_⟩
  rw [take_set_set _ _ _ _ _ (by omega)]
  apply List.ext_getElem?
  intro j
  rw [inserted_getElem? d str L p n j hpL (by omega) (by omega), List.getElem?_take, hg2]
  by_cases c0 : j < L + n
  · simp only [if_pos c0]
  · have c1 : ¬ j < p := by omega
    have c2 : ¬ j < p + n := by omega
    simp only [if_neg c0, if_neg c1, if_neg c2]

/-- An insert of source bytes whose inserted amount fits behind the content
(`size() + insertion_size <= MAX_CHARS`, which always holds for an append) returns, shifts
the tail right and copies the source in (the part of C3 and C4 that the code satisfies). -/
theorem insert_n_eq (SIZE : Nat) (d str : List Nat) (index count : Nat)
    (h1 : 1 ≤ SIZE) (h255 : SIZE ≤ 255) (hinv : Inv SIZE d)
    (hfit : size SIZE d + min count (SIZE - 1 - min index (size SIZE d)) ≤ SIZE - 1)
    (hsrc : min count (SIZE - 1 - min index (size SIZE d)) ≤ str.length) :
    ∃ d', insert_n SIZE index str count d = some d' ∧
      size SIZE d' = size SIZE d + min count (SIZE - 1 - min index (size SIZE d)) ∧
      content SIZE d' = (content SIZE d).take (min index (size SIZE d))
        ++ str.take (min count (SIZE - 1 - min index (size SIZE d)))
        ++ (content SIZE d).drop (min index (size SIZE d)) := by
  obtain ⟨d', e1, e2, e3⟩ := insert_n_core SIZE d str index count _ _ _ h1 h255 hinv.1 rfl rfl
    rfl hfit hsrc (available_of_Inv h255 hinv).2
  refine ⟨d', e1, e2, ?_⟩
  unfold content
  rw [e2]; exact e3

theorem insert_n_eq_witness :
    ∃ d', insert_n 10 4 [95, 95] 2 [49, 50, 51, 52, 53, 54, 55, 0, 170, 2] = some d' ∧
      size 10 d' = size 10 [49, 50, 51, 52, 53, 54, 55, 0, 170, 2]
        + min 2 (10 - 1 - min 4 (size 10 [49, 50, 51, 52, 53, 54, 55, 0, 170, 2])) ∧
      content 10 d' = (content 10 [49, 50, 51, 52, 53, 54, 55, 0, 170, 2]).take
          (min 4 (size 10 [49, 50, 51, 52, 53, 54, 55, 0, 170, 2]))
        ++ [95, 95].take (min 2 (10 - 1 - min 4 (size 10 [49, 50, 51, 52, 53, 54, 55, 0, 170, 2])))
        ++ (content 10 [49, 50, 51, 52, 53, 54, 55, 0, 170, 2]).drop
          (min 4 (size 10 [49, 50, 51, 52, 53, 54, 55, 0, 170, 2])) :=
  insert_n_eq 10 [49, 50, 51, 52, 53, 54, 55, 0, 170, 2] [95, 95] 4 2 (by decide) (by decide)
    ⟨by decide, by decide, by decide⟩ (by decide) (by decide)

theorem minimum_eq_inf {T : Type} [LinearOrder T] (a b : T) : minimum a b = min a b := by
  unfold minimum
  split
  · rename_i h; exact (min_eq_left (le_of_lt h)).symm
  · rename_i h; exact (min_eq_right (not_lt.mp h)).symm

theorem maximum_eq_sup {T : Type} [LinearOrder T] (a b : T) : maximum a b = max a b := by
  unfold maximum
  split
  · rename_i h; exact (max_eq_left (le_of_lt h)).symm
  · rename_i h; exact (max_eq_right (not_lt.mp h)).symm

theorem Interval_clip_eq {T : Type} [LinearOrder T] (a b v : T) :
    (Interval.make a b).clip v = min (max a b) (max (min a b) v) := by
  unfold Interval.clip Interval.make
  simp only [minimum_eq_inf, maximum_eq_sup]

/-- C20: for a linear order, Interval(a, b) has min = minimum(a, b) <= max = maximum(a, b); for every v, clip(v) lies in [min, max]; clip(v) is v for every v in the range, min for every v below the range and max for every v above it, the boundary closest to v; inRange(v) holds exactly when min <= v <= max -/
theorem C20_interval_clip_inRange {T : Type} [LinearOrder T] (a b : T) :
    (Interval.make a b).min = minimum a b ∧ (Interval.make a b).max = maximum a b ∧
      minimum a b = min a b ∧ maximum a b = max a b ∧
      (Interval.make a b).min ≤ (Interval.make a b).max ∧
      (∀ v, (Interval.make a b).min ≤ (Interval.make a b).clip v ∧
        (Interval.make a b).clip v ≤ (Interval.make a b).max) ∧
      (∀ v, (Interval.make a b).min ≤ v → v ≤ (Interval.make a b).max →
        (Interval.make a b).clip v = v) ∧
      (∀ v, v < (Interval.make a b).min →
        (Interval.make a b).clip v = (Interval.make a b).min) ∧
      (∀ v, (Interval.make a b).max < v →
        (Interval.make a b).clip v = (Interval.make a b).max) ∧
      (∀ v, (Interval.make a b).inRange v = true ↔
        (Interval.make a b).min ≤ v ∧ v ≤ (Interval.make a b).max) := by
  have hmin : (Interval.make a b).min = min a b := minimum_eq_inf a b
  have hmax : (Interval.make a b).max = max a b := maximum_eq_sup a b
  have hle : min a b ≤ max a b := le_trans (min_le_left a b) (le_max_left a b)
  refine ⟨rfl, rfl, minimum_eq_inf a b, maximum_eq_sup a b, ?_, ?_, ?_, ?_, ?_, ?_⟩
  · rw [hmin, hmax]; exact hle
  · intro v
    constructor
    · rw [hmin, Interval_clip_eq]; exact le_min hle (le_max_left _ _)
    · rw [hmax, Interval_clip_eq]; exact min_le_left _ _
  · intro v hu1 hu2
    rw [hmin] at hu1; rw [hmax] at hu2
    rw [Interval_clip_eq, max_eq_right hu1, min_eq_right hu2]
  · intro v hlo
    rw [hmin] at hlo ⊢
    rw [Interval_clip_eq, max_eq_left (le_of_lt hlo), min_eq_right hle]
  · intro v hhi
    rw [hmax] at hhi ⊢
    have h2 : max a b ≤ max (min a b) v := le_trans (le_of_lt hhi) (le_max_right _ _)
    rw [Interval_clip_eq, min_eq_left h2]
  · intro v
    unfold Interval.inRange
    rw [decide_eq_true_iff, hmin, hmax, Interval_clip_eq]
    constructor
    · intro h
      constructor
      · rw [← h]; exact le_min hle (le_max_left _ _)
      · rw [← h]; exact min_le_left _ _
    · intro ⟨h1, h2⟩
      rw [max_eq_right h1, min_eq_right h2]

theorem C20_witness :
    ((Interval.make (5 : Int) 2).min = minimum 5 2 ∧
      (Interval.make (5 : Int) 2).max = maximum 5 2 ∧
      (Interval.make (5 : Int) 2).min ≤ (Interval.make (5 : Int) 2).max ∧
      (Interval.make (5 : Int) 2).clip 3 = 3 ∧
      (Interval.make (5 : Int) 2).clip 1 = (Interval.make (5 : Int) 2).min ∧
      (Interval.make (5 : Int) 2).clip 9 = (Interval.make (5 : Int) 2).max ∧
      ((Interval.make (5 : Int) 2).inRange 7 = true ↔
        (Interval.make (5 : Int) 2).min ≤ 7 ∧ 7 ≤ (Interval.make (5 : Int) 2).max)) ∧
    ((Interval.make (0 : Nat) 4).clip 0 = 0 ∧
      (Interval.make (0 : Nat) 4).clip 9 = (Interval.make (0 : Nat) 4).max) :=
  ⟨⟨(C20_interval_clip_inRange (5 : Int) 2).1,
      (C20_interval_clip_inRange (5 : Int) 2).2.1,
      (C20_interval_clip_inRange (5 : Int) 2).2.2.2.2.1,
      (C20_interval_clip_inRange (5 : Int) 2).2.2.2.2.2.2.1 3 (by decide) (by decide),
      (C20_interval_clip_inRange (5 : Int) 2).2.2.2.2.2.2.2.1 1 (by decide),
      (C20_interval_clip_inRange (5 : Int) 2).2.2.2.2.2.2.2.2.1 9 (by decide),
      (C20_interval_clip_inRange (5 : Int) 2).2.2.2.2.2.2.2.2.2 7⟩,
    ⟨(C20_interval_clip_inRange (0 : Nat) 4).2.2.2.2.2.2.1 0 (by decide) (by decide),
      (C20_interval_clip_inRange (0 : Nat) 4).2.2.2.2.2.2.2.2.1 9 (by decide)⟩⟩

/-- C15: on the Str<5> holding "ab", front() returns 'a' but back() returns data()[size()] = the terminator 0, not the last element 'b' -/
theorem C15_back_returns_terminator :
    Inv 5 [97, 98, 0, 170, 2] ∧ size 5 [97, 98, 0, 170, 2] = 2 ∧
      content 5 [97, 98, 0, 170, 2] = [97, 98] ∧
      IArr.front [97, 98, 0, 170, 2] = some 97 ∧
      IArr.back [97, 98, 0, 170, 2] (size 5 [97, 98, 0, 170, 2]) = some 0 ∧
      (content 5 [97, 98, 0, 170, 2])[size 5 [97, 98, 0, 170, 2] - 1]? = some 98 :=
  ⟨⟨by decide, by decide, by decide⟩, by decide, by decide, by decide, by decide, by decide⟩

/-- On every buffer back() returns the terminator stored at data()[size()], and on a
non-empty buffer front() returns the first content character (the part of C15 that the
code satisfies). -/
theorem front_back_spec (SIZE : Nat) (d : List Nat) (hinv : Inv SIZE d)
    (hne : 1 ≤ size SIZE d) :
    IArr.front d = (content SIZE d)[0]? ∧ IArr.back d (size SIZE d) = some 0 := by
  obtain ⟨hlen, hsz, hterm⟩ := hinv
  refine ⟨?_, hterm⟩
  unfold IArr.front memRead content
  rw [List.getElem?_take_of_lt (by omega)]

theorem front_back_spec_witness :
    IArr.front [97, 98, 0, 170, 2] = (content 5 [97, 98, 0, 170, 2])[0]? ∧
      IArr.back [97, 98, 0, 170, 2] (size 5 [97, 98, 0, 170, 2]) = some 0 :=
  front_back_spec 5 [97, 98, 0, 170, 2] ⟨by decide, by decide, by decide⟩ (by decide)

/-- C16 (amended): at(i) returns the element s[i] for every i < len; it performs no range check and is the same read as operator[], so for every index j with len <= j < SIZE it does not fail but returns the storage byte at j, the terminator for j = len and a byte outside the logical range beyond it; for every j >= SIZE the access lies outside the storage and is undefined -/
theorem C16_at_is_unchecked (SIZE : Nat) (d : List Nat) (hinv : Inv SIZE d) :
    (∀ i, i < size SIZE d →
      ∃ c, IArr.at_ d i = some c ∧ (content SIZE d)[i]? = some c) ∧
    (∀ j, size SIZE d ≤ j → j < SIZE →
      ∃ c, IArr.at_ d j = some c ∧ d[j]? = some c ∧ (content SIZE d)[j]? = none) ∧
    IArr.at_ d (size SIZE d) = some 0 ∧
    (∀ j, SIZE ≤ j → IArr.at_ d j = none) ∧
    (∀ i, IArr.at_ d i = IArr.index d i) := by
  obtain ⟨hlen, hsz, hterm⟩ := hinv
  have hcap : capacity SIZE = SIZE - 1 := rfl
  have hcl : (content SIZE d).length = size SIZE d := by
    unfold content; rw [List.length_take]; omega
  unfold IArr.at_ IArr.index memRead
  refine ⟨?_, ?_, hterm, ?_, fun _ => rfl⟩
  · intro i hi
    refine ⟨d[i], List.getElem?_eq_getElem (by omega), ?_⟩
    unfold content
    rw [List.getElem?_take_of_lt hi, List.getElem?_eq_getElem (by omega)]
  · intro j hj1 hj2
    exact ⟨d[j], List.getElem?_eq_getElem (by omega), List.getElem?_eq_getElem (by omega),
      List.getElem?_eq_none (by omega)⟩
  · intro j hj
    exact List.getElem?_eq_none (by omega)

theorem C16_witness :
    (∃ c, IArr.at_ [97, 98, 0, 170, 2] 1 = some c ∧
      (content 5 [97, 98, 0, 170, 2])[1]? = some c) ∧
    (∃ c, IArr.at_ [97, 98, 0, 170, 2] 3 = some c ∧ [97, 98, 0, 170, 2][3]? = some c ∧
      (content 5 [97, 98, 0, 170, 2])[3]? = none) ∧
    IArr.at_ [97, 98, 0, 170, 2] (size 5 [97, 98, 0, 170, 2]) = some 0 ∧
    IArr.at_ [97, 98, 0, 170, 2] 7 = none ∧
    (∃ c, IArr.at_ [0, 170, 170, 170, 4] 0 = some c ∧ [0, 170, 170, 170, 4][0]? = some c ∧
      (content 5 [0, 170, 170, 170, 4])[0]? = none) :=
  ⟨(C16_at_is_unchecked 5 [97, 98, 0, 170, 2] ⟨by decide, by decide, by decide⟩).1 1
      (by decide),
    (C16_at_is_unchecked 5 [97, 98, 0, 170, 2] ⟨by decide, by decide, by decide⟩).2.1 3
      (by decide) (by decide),
    (C16_at_is_unchecked 5 [97, 98, 0, 170, 2] ⟨by decide, by decide, by decide⟩).2.2.1,
    (C16_at_is_unchecked 5 [97, 98, 0, 170, 2] ⟨by decide, by decide, by decide⟩).2.2.2.1 7
      (by decide),
    (C16_at_is_unchecked 5 [0, 170, 170, 170, 4] ⟨by decide, by decide, by decide⟩).2.1 0
      (by decide) (by decide)⟩

/-- C16 counterexample: on the Str<5> holding "ab" (len 2), at(2) and at(3) do not fail: they return the terminator and the unused storage byte behind it, bytes outside the logical range [0, 2) -/
theorem C16_counterexample_at_past_length :
    Inv 5 [97, 98, 0, 170, 2] ∧ size 5 [97, 98, 0, 170, 2] = 2 ∧
      IArr.at_ [97, 98, 0, 170, 2] 2 = some 0 ∧ IArr.at_ [97, 98, 0, 170, 2] 3 = some 170 ∧
      IArr.at_ [97, 98, 0, 170, 2] 4 = some 2 :=
  ⟨⟨by decide, by decide, by decide⟩, by decide, by decide, by decide, by decide⟩

theorem traverse_eq (data : List Nat) : ∀ (r it : Nat), it + r ≤ data.length →
    IArr.traverse data r it = some ((data.drop it).take r)
  | 0, it, _ => by simp [IArr.traverse]
  | r + 1, it, h => by
    have hi : it < data.length := by omega
    unfold IArr.traverse memRead
    rw [List.getElem?_eq_getElem hi, Option.some_bind, traverse_eq data r (it + 1) (by omega),
      List.drop_eq_getElem_cons hi, List.take_succ_cons]
    rfl

/-- C17: begin() is position 0, end() - begin() is size(), walking from begin() to end() visits exactly the content in order, and empty() holds iff size() is 0 iff begin() equals end() -/
theorem C17_cursors_delimit_content (SIZE : Nat) (d : List Nat)
    (h1 : 1 ≤ SIZE) (hinv : Inv SIZE d) :
    IArr.begin_ = 0 ∧ IArr.end_ (size SIZE d) - IArr.begin_ = size SIZE d ∧
      IArr.traverse d (IArr.end_ (size SIZE d) - IArr.begin_) IArr.begin_
        = some (content SIZE d) ∧
      (content SIZE d).length = size SIZE d ∧
      (empty SIZE d = true ↔ size SIZE d = 0) ∧
      (size SIZE d = 0 ↔ IArr.begin_ = IArr.end_ (size SIZE d)) := by
  obtain ⟨hlen, hsz, hterm⟩ := hinv
  have hcap : capacity SIZE = SIZE - 1 := rfl
  unfold IArr.begin_ IArr.end_
  refine ⟨rfl, rfl, ?_, ?_, ?_, ?_⟩
  · rw [Nat.sub_zero, traverse_eq d _ 0 (by omega)]
    rfl
  · unfold content; rw [List.length_take]; omega
  · unfold empty; simp
  · constructor
    · intro h; exact h.symm
    · intro h; exact h.symm

theorem C17_witness :
    IArr.begin_ = 0 ∧ IArr.end_ (size 5 [97, 98, 0, 170, 2]) - IArr.begin_
        = size 5 [97, 98, 0, 170, 2] ∧
      IArr.traverse [97, 98, 0, 170, 2] (IArr.end_ (size 5 [97, 98, 0, 170, 2]) - IArr.begin_)
        IArr.begin_ = some (content 5 [97, 98, 0, 170, 2]) ∧
      (content 5 [97, 98, 0, 170, 2]).length = size 5 [97, 98, 0, 170, 2] ∧
      (empty 5 [97, 98, 0, 170, 2] = true ↔ size 5 [97, 98, 0, 170, 2] = 0) ∧
      (size 5 [97, 98, 0, 170, 2] = 0 ↔ IArr.begin_ = IArr.end_ (size 5 [97, 98, 0, 170, 2])) :=
  C17_cursors_delimit_content 5 [97, 98, 0, 170, 2] (by decide)
    ⟨by decide, by decide, by decide⟩

theorem take_succ_set (d : List Nat) (L c : Nat) (hL : L < d.length) :
    (d.set L c).take (L + 1) = d.take L ++ [c] := by
  apply List.ext_getElem?
  intro j
  simp only [List.getElem?_take, List.getElem?_set, List.getElem?_append, List.length_take]
  by_cases h1 : j < L
  · rw [if_pos (by omega), if_neg (by omega), if_pos (by omega), if_pos h1]
  · by_cases h2 : j = L
    · subst h2
      rw [if_pos (by omega), if_pos rfl, if_pos hL, if_neg (by omega)]
      simp [Nat.min_eq_left (Nat.le_of_lt hL)]
    · rw [if_neg (by omega), if_neg (by omega), List.getElem?_eq_none]
      simp only [List.length_singleton]; omega

theorem int_to_size_t_one : int_to_size_t 1 = 1 := by
  unfold int_to_size_t SIZE_T_RANGE; omega

theorem addSz_neg_one (L : Nat) (h1 : 1 ≤ L) (h2 : L < 2 ^ 64) :
    addSz L (int_to_size_t (-1)) = L - 1 := by
  unfold addSz int_to_size_t SIZE_T_RANGE; omega

/-- A push_back on a non-full buffer returns, stores `c` at the old end, adds 1 to
`size()` and appends `c` to the content, which is otherwise unchanged; this holds for every
`SIZE <= 255` (the part of C11 about push_back, which the code satisfies). -/
theorem push_back_eq (SIZE : Nat) (d : List Nat) (c : Nat) (h1 : 1 ≤ SIZE) (h255 : SIZE ≤ 255)
    (hinv : Inv SIZE d) (hnf : size SIZE d < MAX_CHARS SIZE) :
    ∃ d', push_back SIZE c d = some d' ∧ Inv SIZE d' ∧ size SIZE d' = size SIZE d + 1 ∧
      content SIZE d' = content SIZE d ++ [c] ∧ memRead d' (size SIZE d) = some c := by
  obtain ⟨hlen, hsz, hterm⟩ := Inv_facts hinv
  have hmk := (available_of_Inv h255 hinv).2
  have hM : MAX_CHARS SIZE = SIZE - 1 := rfl
  have hs1 : size SIZE (d.set (size SIZE d) c) = size SIZE d :=
    size_eq_of_marker (List.getElem?_set_ne (by omega))
  have hlen1 : (d.set (size SIZE d) c).length = SIZE := by simp [hlen]
  have hpb : push_back SIZE c d = some (((d.set (size SIZE d) c).set (MAX_CHARS SIZE)
      (MAX_CHARS SIZE - (size SIZE d + 1))).set (size SIZE d + 1) 0) := by
    unfold push_back memWrite
    rw [if_pos (by omega), Option.some_bind]
    unfold modify_size
    rw [hs1, int_to_size_t_one, addSz_eq _ _ (by omega)]
    exact set_size_unsafe_eq h1 h255 hlen1 (by omega) (by omega)
  have hinv' := Inv_push_back h1 h255 hlen hpb
  have hsize := @size_set_size SIZE (size SIZE d + 1) (d.set (size SIZE d) c) h1 h255 hlen1
    (by omega) (by omega)
  refine ⟨_, hpb, hinv', hsize, ?_, ?_⟩
  · unfold content
    rw [hsize, take_set_set _ _ _ _ _ (by omega), take_succ_set d _ c (by omega)]
  · unfold memRead
    rw [List.getElem?_set_ne (by omega), List.getElem?_set_ne (by omega), List.getElem?_set]
    simp; omega

/-- Where the new marker `SIZE - 1 - (len - 1)` is at most 127 (so always when
`SIZE <= 128`), pop_back() on a buffer of length `len >= 1` returns, leaves the content
without its last character, `size()` `len - 1` and a terminator at index `len - 1` (the
part of C12 that the code satisfies). -/
theorem pop_back_eq (SIZE : Nat) (d : List Nat) (h1 : 1 ≤ SIZE) (h255 : SIZE ≤ 255)
    (hinv : Inv SIZE d) (hne : 1 ≤ size SIZE d) (hm : SIZE - 1 - (size SIZE d - 1) ≤ 127) :
    ∃ d', pop_back SIZE d = some d' ∧ Inv SIZE d' ∧ size SIZE d' = size SIZE d - 1 ∧
      content SIZE d' = (content SIZE d).take (size SIZE d - 1) ∧
      memRead d' (size SIZE d - 1) = some 0 := by
  obtain ⟨hlen, hsz, hterm⟩ := Inv_facts hinv
  have hM : MAX_CHARS SIZE = SIZE - 1 := rfl
  have hsub : subSz (size SIZE d) 1 = size SIZE d - 1 := subSz_eq _ _ hne (by omega)
  have hs1 : size SIZE (d.set (size SIZE d - 1) 0) = size SIZE d :=
    size_eq_of_marker (List.getElem?_set_ne (by omega))
  have hlen1 : (d.set (size SIZE d - 1) 0).length = SIZE := by simp [hlen]
  have hpb : pop_back SIZE d = some (((d.set (size SIZE d - 1) 0).set (MAX_CHARS SIZE)
      (MAX_CHARS SIZE - (size SIZE d - 1))).set (size SIZE d - 1) 0) := by
    unfold pop_back memWrite
    rw [hsub, if_pos (by omega), Option.some_bind]
    unfold modify_size
    rw [hs1, addSz_neg_one _ hne (by omega)]
    exact set_size_unsafe_eq h1 h255 hlen1 (by omega) (by omega)
  have hinv' := Inv_pop_back h1 h255 hlen hpb
  have hsize := @size_set_size SIZE (size SIZE d - 1) (d.set (size SIZE d - 1) 0) h1 h255 hlen1
    (by omega) (by omega)
  refine ⟨_, hpb, hinv', hsize, ?_, ?_⟩
  · unfold content
    rw [hsize, take_set_set _ _ _ _ _ (by omega), List.take_take,
      Nat.min_eq_left (Nat.sub_le _ _)]
    apply List.ext_getElem?
    intro j
    simp only [List.getElem?_take]
    by_cases hj : j < size SIZE d - 1
    · rw [if_pos hj, if_pos hj, List.getElem?_set_ne (by omega)]
    · rw [if_neg hj, if_neg hj]
  · unfold memRead
    rw [List.getElem?_set]; simp; omega

theorem push_back_all_eq (SIZE : Nat) (h1 : 1 ≤ SIZE) (h255 : SIZE ≤ 255) :
    ∀ (cs d : List Nat), Inv SIZE d → size SIZE d + cs.length ≤ MAX_CHARS SIZE →
      ∃ d', push_back_all SIZE cs d = some d' ∧ Inv SIZE d' ∧
        size SIZE d' = size SIZE d + cs.length ∧ content SIZE d' = content SIZE d ++ cs
  | [], d, hinv, _ => ⟨d, rfl, hinv, by simp, by simp⟩
  | c :: cs, d, hinv, hk => by
    have hk' : size SIZE d + (cs.length + 1) ≤ MAX_CHARS SIZE := by simpa using hk
    obtain ⟨d1, e1, i1, s1, c1, _⟩ := push_back_eq SIZE d c h1 h255 hinv (by omega)
    obtain ⟨d2, e2, i2, s2, c2⟩ := push_back_all_eq SIZE h1 h255 cs d1 i1 (by omega)
    refine ⟨d2, ?_, i2, ?_, ?_⟩
    · unfold push_back_all; rw [e1, Option.some_bind, e2]
    · rw [s2, s1, List.length_cons]; omega
    · rw [c2, c1]; simp

theorem ctor_default_eq (SIZE : Nat) (g : List Nat) (h1 : 1 ≤ SIZE) (h128 : SIZE ≤ 128)
    (hg : g.length = SIZE) :
    ∃ d, ctor_default SIZE g = some d ∧ Inv SIZE d ∧ size SIZE d = 0 ∧ content SIZE d = [] := by
  have h255 : SIZE ≤ 255 := by omega
  have hm : MAX_CHARS SIZE - 0 ≤ 127 := by unfold MAX_CHARS; omega
  have he : ctor_default SIZE g = some ((g.set (MAX_CHARS SIZE) (MAX_CHARS SIZE - 0)).set 0 0) :=
    set_size_unsafe_eq h1 h255 hg (Nat.zero_le _) hm
  have hs := @size_set_size SIZE 0 g h1 h255 hg (Nat.zero_le _) hm
  refine ⟨_, he, ?_, hs, ?_⟩
  · unfold ctor_default clear at he
    exact Inv_of_set_size_unsafe h1 h255 hg he
  · unfold content; rw [hs]; rfl

/-- For `SIZE <= 128` a default-constructed Str<SIZE> has `size()` 0 and empty content, and
pushing `k <= SIZE - 1` characters onto it in order returns a buffer of `size()` `k` whose
content is those characters, with the terminator at index `k` (the part of C11 about the
default constructor that the code satisfies). -/
theorem default_ctor_push_back_all (SIZE : Nat) (g cs : List Nat)
    (h1 : 1 ≤ SIZE) (h128 : SIZE ≤ 128) (hg : g.length = SIZE) (hk : cs.length ≤ SIZE - 1) :
    ∃ d0, ctor_default SIZE g = some d0 ∧ size SIZE d0 = 0 ∧ content SIZE d0 = [] ∧
      ∃ dk, push_back_all SIZE cs d0 = some dk ∧ size SIZE dk = cs.length ∧
        content SIZE dk = cs ∧ memRead dk cs.length = some 0 := by
  have h255 : SIZE ≤ 255 := by omega
  obtain ⟨d0, e0, i0, s0, c0⟩ := ctor_default_eq SIZE g h1 h128 hg
  obtain ⟨dk, ek, ik, sk, ck⟩ := push_back_all_eq SIZE h1 h255 cs d0 i0
    (by rw [s0]; unfold MAX_CHARS; omega)
  refine ⟨d0, e0, s0, c0, dk, ek, by rw [sk, s0]; omega, by rw [ck, c0]; rfl, ?_⟩
  have := ik.2.2
  rw [sk, s0, Nat.zero_add] at this
  exact this

theorem default_ctor_push_back_all_witness :
    ∃ d0, ctor_default 5 [170, 170, 170, 170, 170] = some d0 ∧ size 5 d0 = 0 ∧
      content 5 d0 = [] ∧
      ∃ dk, push_back_all 5 [97, 98, 99, 100] d0 = some dk ∧
        size 5 dk = [97, 98, 99, 100].length ∧
        content 5 dk = [97, 98, 99, 100] ∧ memRead dk [97, 98, 99, 100].length = some 0 :=
  default_ctor_push_back_all 5 [170, 170, 170, 170, 170] [97, 98, 99, 100]
    (by decide) (by decide) (by decide) (by decide)

theorem push_back_eq_witness :
    ∃ d', push_back 200 99 (List.replicate 150 65 ++ [0] ++ List.replicate 48 170 ++ [49])
        = some d' ∧ Inv 200 d' ∧
      size 200 d' = size 200 (List.replicate 150 65 ++ [0] ++ List.replicate 48 170 ++ [49]) + 1 ∧
      content 200 d'
        = content 200 (List.replicate 150 65 ++ [0] ++ List.replicate 48 170 ++ [49]) ++ [99] ∧
      memRead d' (size 200 (List.replicate 150 65 ++ [0] ++ List.replicate 48 170 ++ [49]))
        = some 99 :=
  push_back_eq 200 (List.replicate 150 65 ++ [0] ++ List.replicate 48 170 ++ [49]) 99
    (by decide) (by decide) ⟨by decide, by decide, by decide⟩ (by decide)

/-- C11: the default constructor of Str<200> is clear(), set_size_unsafe(0): it stores the marker 199 in the last storage byte, which available() reads back through the signed char as -57, so size() is 199 + 57 = 256 instead of 0 and the terminator is written to index 256, outside the storage: the constructor has no defined result, and neither has any push_back sequence that starts from it -/
theorem C11_default_ctor_size_not_zero :
    (List.replicate 200 170).length = 200 ∧
      memWrite (List.replicate 200 170) (MAX_CHARS 200)
          (subSz (MAX_CHARS 200) (to_uint8 0) % 256)
        = some (List.replicate 199 170 ++ [199]) ∧
      to_int8 199 = -57 ∧
      size 200 (List.replicate 199 170 ++ [199]) = 256 ∧
      memWrite (List.replicate 199 170 ++ [199]) 256 0 = none ∧
      clear 200 (List.replicate 200 170) = none ∧
      ctor_default 200 (List.replicate 200 170) = none ∧
      (ctor_default 200 (List.replicate 200 170)).bind (push_back_all 200 [97, 98]) = none :=
  ⟨by decide, by decide, by decide, by decide, by decide, by decide, by decide, by decide⟩

/-- A pop_back() after a push_back(c) on a non-full buffer returns and gives back the
original content and size, for every `SIZE <= 255` (the part of C12 about the round trip,
which the code satisfies). -/
theorem push_back_pop_back (SIZE : Nat) (e : List Nat) (c : Nat)
    (h1 : 1 ≤ SIZE) (h255 : SIZE ≤ 255) (hinve : Inv SIZE e) (hnf : full SIZE e = false) :
    ∃ e1 e2, push_back SIZE c e = some e1 ∧ pop_back SIZE e1 = some e2 ∧
      size SIZE e2 = size SIZE e ∧ content SIZE e2 = content SIZE e := by
  have hmk := (available_of_Inv h255 hinve).2
  have hlt : size SIZE e < MAX_CHARS SIZE := by
    have hle := hinve.2.1
    unfold full max_size at hnf
    have hne : size SIZE e ≠ MAX_CHARS SIZE := by simpa using hnf
    unfold capacity at hle; omega
  obtain ⟨d1, e1, i1, s1, c1, _⟩ := push_back_eq SIZE e c h1 h255 hinve hlt
  obtain ⟨d2, e2, _, s2, c2, _⟩ := pop_back_eq SIZE d1 h1 h255 i1 (by omega)
    (by rw [s1]; unfold MAX_CHARS at hmk; omega)
  refine ⟨d1, d2, e1, e2, by rw [s2, s1]; omega, ?_⟩
  have hcl : (content SIZE e).length = size SIZE e := by
    unfold content; rw [List.length_take]
    have := hinve.1; have := hinve.2.1; unfold capacity MAX_CHARS at *; omega
  rw [c2, c1, s1, Nat.add_sub_cancel, ← hcl, List.take_left]

theorem push_back_pop_back_witness :
    ∃ e1 e2, push_back 5 99 [97, 98, 0, 170, 2] = some e1 ∧ pop_back 5 e1 = some e2 ∧
      size 5 e2 = size 5 [97, 98, 0, 170, 2] ∧
      content 5 e2 = content 5 [97, 98, 0, 170, 2] :=
  push_back_pop_back 5 [97, 98, 0, 170, 2] 99 (by decide) (by decide)
    ⟨by decide, by decide, by decide⟩ (by decide)

theorem pop_back_eq_witness :
    ∃ d', pop_back 5 [48, 49, 49, 49, 0] = some d' ∧ Inv 5 d' ∧
      size 5 d' = size 5 [48, 49, 49, 49, 0] - 1 ∧
      content 5 d' = (content 5 [48, 49, 49, 49, 0]).take (size 5 [48, 49, 49, 49, 0] - 1) ∧
      memRead d' (size 5 [48, 49, 49, 49, 0] - 1) = some 0 :=
  pop_back_eq 5 [48, 49, 49, 49, 0] (by decide) (by decide)
    ⟨by decide, by decide, by decide⟩ (by decide) (by decide)

/-- C12: pop_back() on the Str<130> holding "ab" (length 2, marker 127) zeroes index 1 and calls modify_size(-1), which computes the new size 1 and stores the marker 128 = 129 - 1; available() reads it back through the signed char as -128, so size() is 129 + 128 = 257 instead of 1 and the terminator is written to index 257, outside the storage: the call has no defined result -/
theorem C12_pop_back_marker_sign_extended :
    Inv 130 ([97, 98, 0] ++ List.replicate 126 170 ++ [127]) ∧
      size 130 ([97, 98, 0] ++ List.replicate 126 170 ++ [127]) = 2 ∧
      empty 130 ([97, 98, 0] ++ List.replicate 126 170 ++ [127]) = false ∧
      memWrite ([97, 98, 0] ++ List.replicate 126 170 ++ [127])
          (subSz (size 130 ([97, 98, 0] ++ List.replicate 126 170 ++ [127])) 1) 0
        = some ([97, 0, 0] ++ List.replicate 126 170 ++ [127]) ∧
      to_uint8 (addSz (size 130 ([97, 0, 0] ++ List.replicate 126 170 ++ [127]))
        (int_to_size_t (-1))) = 1 ∧
      memWrite ([97, 0, 0] ++ List.replicate 126 170 ++ [127]) (MAX_CHARS 130)
          (subSz (MAX_CHARS 130) (to_uint8 1) % 256)
        = some ([97, 0, 0] ++ List.replicate 126 170 ++ [128]) ∧
      size 130 ([97, 0, 0] ++ List.replicate 126 170 ++ [128]) = 257 ∧
      memWrite ([97, 0, 0] ++ List.replicate 126 170 ++ [128]) 257 0 = none ∧
      pop_back 130 ([97, 98, 0] ++ List.replicate 126 170 ++ [127]) = none :=
  ⟨⟨by decide, by decide, by decide⟩, by decide, by decide, by decide, by decide, by decide,
    by decide, by decide, by decide⟩

theorem content_length {SIZE : Nat} {d : List Nat} (hinv : Inv SIZE d) :
    (content SIZE d).length = size SIZE d := by
  obtain ⟨hlen, hsz, _⟩ := Inv_facts hinv
  unfold content; rw [List.length_take]
  unfold MAX_CHARS at hsz; omega

theorem append_n_eq (SIZE : Nat) (d str : List Nat) (count : Nat)
    (h1 : 1 ≤ SIZE) (h255 : SIZE ≤ 255) (hinv : Inv SIZE d)
    (hsrc : min count (SIZE - 1 - size SIZE d) ≤ str.length) :
    ∃ d', insert_n SIZE (size SIZE d) str count d = some d' ∧ Inv SIZE d' ∧
      size SIZE d' = size SIZE d + min count (SIZE - 1 - size SIZE d) ∧
      content SIZE d' = content SIZE d ++ str.take (min count (SIZE - 1 - size SIZE d)) := by
  obtain ⟨hlen, hsz, _⟩ := Inv_facts hinv
  have hmin : min (size SIZE d) (size SIZE d) = size SIZE d := Nat.min_self _
  obtain ⟨d', e, s, c⟩ := insert_n_eq SIZE d str (size SIZE d) count h1 h255 hinv
    (by rw [hmin]; unfold MAX_CHARS at hsz; omega) (by rw [hmin]; exact hsrc)
  rw [hmin] at s c
  refine ⟨d', e, Inv_insert_n h1 h255 hlen e, s, ?_⟩
  rw [c, ← content_length hinv, List.take_length, List.drop_length, List.append_nil,
    content_length hinv]

/-- C14: append(source, count) is insert(size(), source, count); it returns, keeps the content s and adds the first min(count, available()) source bytes behind it, so size() becomes len + min(count, available()); this holds for every SIZE <= 255, because the marker of a buffer with size() <= capacity() is at most 127 and an append only lowers it -/
theorem C14_append_is_insert_at_size (SIZE : Nat) (d str : List Nat) (count : Nat)
    (h1 : 1 ≤ SIZE) (h255 : SIZE ≤ 255) (hinv : Inv SIZE d) (hsrc : count ≤ str.length) :
    append_n SIZE str count d = insert_n SIZE (size SIZE d) str count d ∧
      ∃ d', append_n SIZE str count d = some d' ∧
        size SIZE d' = size SIZE d + min count (available SIZE d) ∧
        content SIZE d' = content SIZE d ++ str.take (min count (available SIZE d)) ∧
        (content SIZE d').take (size SIZE d) = content SIZE d := by
  refine ⟨rfl, ?_⟩
  have hav : available SIZE d = SIZE - 1 - size SIZE d := (available_of_Inv h255 hinv).1
  obtain ⟨d', e, _, s, c⟩ := append_n_eq SIZE d str count h1 h255 hinv (by omega)
  rw [hav]
  refine ⟨d', e, s, c, ?_⟩
  rw [c, ← content_length hinv, List.take_left]

theorem C14_witness :
    (append_n 10 [54, 55] 2 [49, 50, 51, 52, 53, 0, 170, 170, 170, 4]
        = insert_n 10 (size 10 [49, 50, 51, 52, 53, 0, 170, 170, 170, 4]) [54, 55] 2
          [49, 50, 51, 52, 53, 0, 170, 170, 170, 4] ∧
      ∃ d', append_n 10 [54, 55] 2 [49, 50, 51, 52, 53, 0, 170, 170, 170, 4] = some d' ∧
        size 10 d' = size 10 [49, 50, 51, 52, 53, 0, 170, 170, 170, 4]
          + min 2 (available 10 [49, 50, 51, 52, 53, 0, 170, 170, 170, 4]) ∧
        content 10 d' = content 10 [49, 50, 51, 52, 53, 0, 170, 170, 170, 4]
          ++ [54, 55].take (min 2 (available 10 [49, 50, 51, 52, 53, 0, 170, 170, 170, 4])) ∧
        (content 10 d').take (size 10 [49, 50, 51, 52, 53, 0, 170, 170, 170, 4])
          = content 10 [49, 50, 51, 52, 53, 0, 170, 170, 170, 4]) ∧
    (append_n 200 [54, 55] 2 (List.replicate 150 65 ++ [0] ++ List.replicate 48 170 ++ [49])
        = insert_n 200
          (size 200 (List.replicate 150 65 ++ [0] ++ List.replicate 48 170 ++ [49])) [54, 55] 2
          (List.replicate 150 65 ++ [0] ++ List.replicate 48 170 ++ [49]) ∧
      ∃ d', append_n 200 [54, 55] 2
          (List.replicate 150 65 ++ [0] ++ List.replicate 48 170 ++ [49]) = some d' ∧
        size 200 d' = size 200 (List.replicate 150 65 ++ [0] ++ List.replicate 48 170 ++ [49])
          + min 2 (available 200
            (List.replicate 150 65 ++ [0] ++ List.replicate 48 170 ++ [49])) ∧
        content 200 d'
          = content 200 (List.replicate 150 65 ++ [0] ++ List.replicate 48 170 ++ [49])
            ++ [54, 55].take (min 2 (available 200
              (List.replicate 150 65 ++ [0] ++ List.replicate 48 170 ++ [49]))) ∧
        (content 200 d').take
            (size 200 (List.replicate 150 65 ++ [0] ++ List.replicate 48 170 ++ [49]))
          = content 200 (List.replicate 150 65 ++ [0] ++ List.replicate 48 170 ++ [49])) :=
  ⟨C14_append_is_insert_at_size 10 [49, 50, 51, 52, 53, 0, 170, 170, 170, 4] [54, 55] 2
      (by decide) (by decide) ⟨by decide, by decide, by decide⟩ (by decide),
    C14_append_is_insert_at_size 200
      (List.replicate 150 65 ++ [0] ++ List.replicate 48 170 ++ [49]) [54, 55] 2
      (by decide) (by decide) ⟨by decide, by decide, by decide⟩ (by decide)⟩

theorem len_empty (n : Nat) : len [0] n = some 0 := by
  unfold len
  cases n with
  | zero => rfl
  | succ m => rfl

theorem ctor_cstr_empty (SIZE : Nat) (g : List Nat) (h1 : 1 ≤ SIZE) (h128 : SIZE ≤ 128)
    (hg : g.length = SIZE) :
    ∃ d, ctor_cstr SIZE g [0] = some d ∧ Inv SIZE d ∧ size SIZE d = 0 ∧ content SIZE d = [] := by
  have h255 : SIZE ≤ 255 := by omega
  have hm : MAX_CHARS SIZE - 0 ≤ 127 := by unfold MAX_CHARS; omega
  have ht : (if 0 < MAX_CHARS SIZE then 0 else MAX_CHARS SIZE) = 0 := by split <;> omega
  have hcp : memcpy g 0 [0] 0 = some g := by
    unfold memcpy; rw [if_pos ⟨by simp, by omega⟩]; simp
  have he : ctor_cstr SIZE g [0]
      = some ((g.set (MAX_CHARS SIZE) (MAX_CHARS SIZE - 0)).set 0 0) := by
    unfold ctor_cstr ctor
    rw [len_empty, Option.some_bind]
    simp only [ht]
    rw [hcp, Option.some_bind]
    exact set_size_unsafe_eq h1 h255 hg (Nat.zero_le _) hm
  have hs := @size_set_size SIZE 0 g h1 h255 hg (Nat.zero_le _) hm
  have hinv : Inv SIZE ((g.set (MAX_CHARS SIZE) (MAX_CHARS SIZE - 0)).set 0 0) := by
    unfold ctor_cstr at he
    exact Inv_ctor h1 h255 hg he
  refine ⟨_, he, hinv, hs, ?_⟩
  unfold content; rw [hs]; rfl

/-- For a : Str<LSIZE> and b : Str<RSIZE> with `LSIZE + RSIZE - 1 <= 128`, operator% returns
a new Str<LSIZE + RSIZE - 1> whose content is a's content followed by b's content,
untruncated, with `size() = a.size() + b.size()` and
`capacity() = a.capacity() + b.capacity()` (the part of C13 that the code satisfies). -/
theorem concat_eq (LSIZE RSIZE : Nat) (g a b : List Nat)
    (hL : 1 ≤ LSIZE) (hR : 1 ≤ RSIZE) (h128 : LSIZE + RSIZE - 1 ≤ 128)
    (hg : g.length = LSIZE + RSIZE - 1) (ha : Inv LSIZE a) (hb : Inv RSIZE b) :
    ∃ c, concat LSIZE RSIZE g a b = some c ∧
      content (LSIZE + RSIZE - 1) c = content LSIZE a ++ content RSIZE b ∧
      size (LSIZE + RSIZE - 1) c = size LSIZE a + size RSIZE b ∧
      capacity (LSIZE + RSIZE - 1) = capacity LSIZE + capacity RSIZE ∧
      Inv (LSIZE + RSIZE - 1) c := by
  obtain ⟨hla, hsa, _⟩ := Inv_facts ha
  obtain ⟨hlb, hsb, _⟩ := Inv_facts hb
  unfold MAX_CHARS at hsa hsb
  have h1 : 1 ≤ LSIZE + RSIZE - 1 := by omega
  have h255 : LSIZE + RSIZE - 1 ≤ 255 := by omega
  obtain ⟨c0, e0, i0, s0, k0⟩ := ctor_cstr_empty (LSIZE + RSIZE - 1) g h1 h128 hg
  obtain ⟨c1, e1, i1, s1, k1⟩ := append_n_eq (LSIZE + RSIZE - 1) c0 a (size LSIZE a) h1 h255 i0
    (by omega)
  have hn1 : min (size LSIZE a) (LSIZE + RSIZE - 1 - 1 - size (LSIZE + RSIZE - 1) c0)
      = size LSIZE a := by rw [s0]; omega
  rw [hn1] at s1 k1
  rw [s0, Nat.zero_add] at s1
  rw [k0, List.nil_append] at k1
  obtain ⟨c2, e2, i2, s2, k2⟩ := append_n_eq (LSIZE + RSIZE - 1) c1 b (size RSIZE b) h1 h255 i1
    (by omega)
  have hn2 : min (size RSIZE b) (LSIZE + RSIZE - 1 - 1 - size (LSIZE + RSIZE - 1) c1)
      = size RSIZE b := by rw [s1]; omega
  rw [hn2] at s2 k2
  rw [s1] at s2
  refine ⟨c2, ?_, ?_, s2, ?_, i2⟩
  · unfold concat append_tstr insert_tstr
    rw [e0, Option.some_bind, e1, Option.some_bind, e2]
  · rw [k2, k1]; rfl
  · unfold capacity MAX_CHARS; omega

theorem concat_eq_witness :
    ∃ c, concat 4 5 [170, 170, 170, 170, 170, 170, 170, 170] [97, 98, 99, 0]
        [100, 101, 102, 103, 0] = some c ∧
      content (4 + 5 - 1) c = content 4 [97, 98, 99, 0] ++ content 5 [100, 101, 102, 103, 0] ∧
      size (4 + 5 - 1) c = size 4 [97, 98, 99, 0] + size 5 [100, 101, 102, 103, 0] ∧
      capacity (4 + 5 - 1) = capacity 4 + capacity 5 ∧
      Inv (4 + 5 - 1) c :=
  concat_eq 4 5 [170, 170, 170, 170, 170, 170, 170, 170] [97, 98, 99, 0]
    [100, 101, 102, 103, 0] (by decide) (by decide) (by decide) (by decide)
    ⟨by decide, by decide, by decide⟩ ⟨by decide, by decide, by decide⟩

/-- C13: a % b for a : Str<65> holding "a" and b : Str<65> holding "b" (65 + 65 - 1 = 129 <= 255) first constructs the Str<129> result from ""; that constructor stores the marker 128, which available() reads back through the signed char as -128, so size() is 256 instead of 0 and the terminator is written to index 256, outside the 129-byte storage: the operator has no defined result -/
theorem C13_concat_result_ctor_sign_extended :
    65 + 65 - 1 ≤ 255 ∧ (List.replicate 129 170).length = 65 + 65 - 1 ∧
      Inv 65 ([97, 0] ++ List.replicate 62 170 ++ [63]) ∧
      content 65 ([97, 0] ++ List.replicate 62 170 ++ [63]) = [97] ∧
      Inv 65 ([98, 0] ++ List.replicate 62 170 ++ [63]) ∧
      content 65 ([98, 0] ++ List.replicate 62 170 ++ [63]) = [98] ∧
      len [0] (MAX_CHARS 129) = some 0 ∧
      memcpy (List.replicate 129 170) 0 [0] 0 = some (List.replicate 129 170) ∧
      memWrite (List.replicate 129 170) (MAX_CHARS 129)
          (subSz (MAX_CHARS 129) (to_uint8 0) % 256)
        = some (List.replicate 128 170 ++ [128]) ∧
      size 129 (List.replicate 128 170 ++ [128]) = 256 ∧
      ctor_cstr 129 (List.replicate 129 170) [0] = none ∧
      concat 65 65 (List.replicate 129 170) ([97, 0] ++ List.replicate 62 170 ++ [63])
        ([98, 0] ++ List.replicate 62 170 ++ [63]) = none :=
  ⟨by decide, by decide, ⟨by decide, by decide, by decide⟩, by decide,
    ⟨by decide, by decide, by decide⟩, by decide, by decide, by decide, by decide, by decide,
    by decide, by decide⟩

theorem cpy_copy_spec (src : List Nat) : ∀ (r i : Nat) (dst : List Nat),
    i + r ≤ src.length → i + r ≤ dst.length →
    ∃ dst', cpy_copy src r i dst
        = some (i + (((src.drop i).take r).takeWhile (fun c => c != 0)).length, dst') ∧
      dst'.length = dst.length ∧
      ∀ j, dst'[j]? = if i ≤ j ∧ j < i + (((src.drop i).take r).takeWhile
          (fun c => c != 0)).length then src[j]? else dst[j]?
  | 0, i, dst, _, _ => by
    refine ⟨dst, by simp [cpy_copy], rfl, ?_⟩
    intro j; rw [if_neg (by simp)]
  | r + 1, i, dst, hs, hd => by
    have hi : i < src.length := by omega
    unfold cpy_copy memRead
    rw [List.getElem?_eq_getElem hi, Option.some_bind, List.drop_eq_getElem_cons hi,
      List.take_succ_cons]
    by_cases hc : src[i] = 0
    · rw [if_neg (by simpa using hc)]
      have hK : (List.takeWhile (fun c => c != 0) (src[i] :: List.take r (List.drop (i + 1) src)))
          = [] := by simp [List.takeWhile_cons, hc]
      rw [hK]
      refine ⟨dst, rfl, rfl, ?_⟩
      intro j; rw [if_neg (by simp)]
    · rw [if_pos hc]
      unfold memWrite
      rw [if_pos (by omega), Option.some_bind]
      obtain ⟨dst', e, l, g⟩ := cpy_copy_spec src r (i + 1) (dst.set i src[i]) (by omega)
        (by simp; omega)
      have hK : (List.takeWhile (fun c => c != 0) (src[i] :: List.take r (List.drop (i + 1) src)))
          = src[i] :: List.takeWhile (fun c => c != 0) (List.take r (List.drop (i + 1) src)) := by
        simp [List.takeWhile_cons, hc]
      rw [hK, List.length_cons]
      refine ⟨dst', ?_, by simpa using l, ?_⟩
      · rw [e]; congr 2; omega
      · intro j
        rw [g j]
        by_cases h1 : j = i
        · subst h1
          rw [if_neg (by omega), if_pos (by omega), List.getElem?_set]
          simp [List.getElem?_eq_getElem hi]; omega
        · by_cases h2 : i + 1 ≤ j ∧ j < i + 1 + (List.takeWhile (fun c => c != 0)
              (List.take r (List.drop (i + 1) src))).length
          · rw [if_pos h2, if_pos (by omega)]
          · rw [if_neg h2, if_neg (by omega), List.getElem?_set_ne (by omega)]

theorem cpy_pad_spec : ∀ (r i : Nat) (dst : List Nat), i + r ≤ dst.length →
    ∃ dst', cpy_pad r i dst = some dst' ∧ dst'.length = dst.length ∧
      ∀ j, dst'[j]? = if i ≤ j ∧ j < i + r then some 0 else dst[j]?
  | 0, i, dst, _ => by
    refine ⟨dst, rfl, rfl, ?_⟩
    intro j; rw [if_neg (by omega)]
  | r + 1, i, dst, hd => by
    unfold cpy_pad memWrite
    rw [if_pos (by omega), Option.some_bind]
    obtain ⟨dst', e, l, g⟩ := cpy_pad_spec r (i + 1) (dst.set i 0) (by simp; omega)
    refine ⟨dst', e, by simpa using l, ?_⟩
    intro j
    rw [g j]
    by_cases h1 : j = i
    · subst h1
      rw [if_neg (by omega), if_pos (by omega), List.getElem?_set]
      simp; omega
    · by_cases h2 : i + 1 ≤ j ∧ j < i + 1 + r
      · rw [if_pos h2, if_pos (by omega)]
      · rw [if_neg h2, if_neg (by omega), List.getElem?_set_ne (by omega)]

theorem length_takeWhile_le_of_zero (l : List Nat) (n : Nat) (h0 : l[n]? = some 0) :
    (l.takeWhile (fun c => c != 0)).length ≤ n := by
  by_contra hc
  have hlt : n < (l.takeWhile (fun c => c != 0)).length := by omega
  have hmem : (l.takeWhile (fun c => c != 0))[n]? = some 0 := by
    rw [← take_length_takeWhile, List.getElem?_take_of_lt hlt, h0]
  have hin : 0 ∈ l.takeWhile (fun c => c != 0) := by
    rw [List.mem_iff_getElem?]; exact ⟨n, hmem⟩
  exact mem_takeWhile_ne_zero l 0 hin rfl

theorem ctor_literal_eq (SIZE : Nat) (literal : List Nat) (h1 : 1 ≤ SIZE) (h255 : SIZE ≤ 255)
    (hlen : literal.length = SIZE) (hlast : literal[SIZE - 1]? = some 0) :
    ctor_literal SIZE literal = some (literal.takeWhile (fun c => c != 0)
      ++ List.replicate (SIZE - (literal.takeWhile (fun c => c != 0)).length) 0) := by
  have hK := length_takeWhile_le_of_zero literal (SIZE - 1) hlast
  have htk : (literal.drop 0).take SIZE = literal := by
    rw [List.drop_zero, ← hlen, List.take_length]
  obtain ⟨d1, e1, l1, g1⟩ := cpy_copy_spec literal SIZE 0 (List.replicate SIZE 0)
    (by omega) (by simp)
  rw [htk, Nat.zero_add] at e1 g1
  generalize hKd : (literal.takeWhile (fun c => c != 0)).length = K at *
  have hl1 : d1.length = SIZE := by rw [l1]; simp
  obtain ⟨d2, e2, l2, g2⟩ := cpy_pad_spec (SIZE - K) K d1 (by omega)
  have hsub : subSz SIZE 1 = SIZE - 1 := subSz_eq _ _ h1 (by omega)
  have htw : literal.takeWhile (fun c => c != 0) = literal.take K := by
    rw [← hKd, take_length_takeWhile]
  have key : d2.set (SIZE - 1) 0 = literal.take K ++ List.replicate (SIZE - K) 0 := by
    apply List.ext_getElem?
    intro j
    simp only [List.getElem?_set, g2, g1, List.getElem?_append, List.getElem?_take,
      List.getElem?_replicate, List.length_take]
    clear e1 e2 g1 g2 htw htk hlast
    repeat' (split <;> try (exfalso; omega))
    all_goals rfl
  unfold ctor_literal cpy
  rw [e1]
  show (cpy_pad (SIZE - K) K d1).bind (fun d2 => memWrite d2 (subSz SIZE 1) 0) = _
  rw [e2, Option.some_bind, hsub]
  unfold memWrite
  rw [if_pos (by omega), key, htw]

/-- C18 (amended): for a literal of SIZE bytes ending in the terminator, the literal constructor returns a buffer holding the literal's bytes before its first terminator followed by zero bytes; this is the literal verbatim exactly when no non-zero byte follows the first terminator; size() is SIZE - 1, data()[size()] is the terminator and the marker is consistent with size(); str_literal is the same constructor -/
theorem C18_literal_ctor_copies_to_first_terminator (SIZE : Nat) (literal : List Nat)
    (h1 : 1 ≤ SIZE) (h255 : SIZE ≤ 255) (hlen : literal.length = SIZE)
    (hlast : literal[SIZE - 1]? = some 0) :
    ∃ d, ctor_literal SIZE literal = some d ∧ str_literal SIZE literal = some d ∧
      d = literal.takeWhile (fun c => c != 0)
        ++ List.replicate (SIZE - (literal.takeWhile (fun c => c != 0)).length) 0 ∧
      (d = literal ↔
        ∀ x ∈ literal.drop (literal.takeWhile (fun c => c != 0)).length, x = 0) ∧
      size SIZE d = SIZE - 1 ∧ memRead d (size SIZE d) = some 0 ∧
      available SIZE d = capacity SIZE - size SIZE d := by
  have he := ctor_literal_eq SIZE literal h1 h255 hlen hlast
  have hinv := Inv_ctor_literal h1 h255 he
  have hK := length_takeWhile_le_of_zero literal (SIZE - 1) hlast
  generalize hd : literal.takeWhile (fun c => c != 0)
    ++ List.replicate (SIZE - (literal.takeWhile (fun c => c != 0)).length) 0 = d at *
  have hav : available SIZE d = 0 := by
    unfold available MAX_CHARS
    rw [List.getD_eq_getElem?_getD, ← hd, List.getElem?_append_right (by omega),
      List.getElem?_replicate, if_pos (by omega)]
    exact char_to_size_t_of_le (Nat.zero_le _)
  have hsize : size SIZE d = SIZE - 1 := by
    unfold size max_size MAX_CHARS
    rw [hav]; exact subSz_eq _ _ (Nat.zero_le _) (by omega)
  refine ⟨d, he, he, rfl, ?_, hsize, hinv.2.2, ?_⟩
  · rw [← hd]
    constructor
    · intro h
      have h2 : literal.takeWhile (fun c => c != 0)
          ++ List.replicate (SIZE - (literal.takeWhile (fun c => c != 0)).length) 0
          = literal.take (literal.takeWhile (fun c => c != 0)).length
            ++ literal.drop (literal.takeWhile (fun c => c != 0)).length := by
        rw [List.take_append_drop]; exact h
      rw [take_length_takeWhile] at h2
      have h3 := List.append_cancel_left h2
      intro x hx
      rw [← h3] at hx
      exact (List.mem_replicate.mp hx).2
    · intro h
      have h3 : literal.drop (literal.takeWhile (fun c => c != 0)).length
          = List.replicate (SIZE - (literal.takeWhile (fun c => c != 0)).length) 0 := by
        rw [List.eq_replicate_iff]
        exact ⟨by rw [List.length_drop, hlen], h⟩
      have h4 := List.take_append_drop (literal.takeWhile (fun c => c != 0)).length literal
      rw [h3, take_length_takeWhile] at h4
      exact h4
  · rw [hav, hsize]; unfold capacity MAX_CHARS; omega

theorem C18_witness :
    ∃ d, ctor_literal 5 [97, 98, 99, 100, 0] = some d ∧
      str_literal 5 [97, 98, 99, 100, 0] = some d ∧
      d = [97, 98, 99, 100, 0].takeWhile (fun c => c != 0)
        ++ List.replicate (5 - ([97, 98, 99, 100, 0].takeWhile (fun c => c != 0)).length) 0 ∧
      (d = [97, 98, 99, 100, 0] ↔
        ∀ x ∈ [97, 98, 99, 100, 0].drop
          ([97, 98, 99, 100, 0].takeWhile (fun c => c != 0)).length, x = 0) ∧
      size 5 d = 5 - 1 ∧ memRead d (size 5 d) = some 0 ∧
      available 5 d = capacity 5 - size 5 d :=
  C18_literal_ctor_copies_to_first_terminator 5 [97, 98, 99, 100, 0] (by decide) (by decide)
    (by decide) (by decide)

/-- C18 counterexample: the 4-byte literal "a\0b" (bytes 'a', 0, 'b', 0) is not copied verbatim: cpy stops at the first terminator and zero-fills, so the storage is 'a', 0, 0, 0 -/
theorem C18_counterexample_embedded_terminator :
    [97, 0, 98, 0].length = 4 ∧ [97, 0, 98, 0][4 - 1]? = some 0 ∧
      ctor_literal 4 [97, 0, 98, 0] = some [97, 0, 0, 0] ∧
      [97, 0, 0, 0] ≠ [97, 0, 98, 0] :=
  ⟨by decide, by decide, by decide, by decide⟩

theorem takeWhile_eq_self_of_ne_zero (l : List Nat) (h : ∀ x ∈ l, x ≠ 0) :
    l.takeWhile (fun c => c != 0) = l := by
  induction l with
  | nil => rfl
  | cons x xs ih =>
    have hx : x ≠ 0 := h x (by simp)
    rw [List.takeWhile_cons, if_pos (by simpa using hx), ih (fun y hy => h y (by simp [hy]))]

theorem le_length_takeWhile (l : List Nat) : ∀ (m : Nat), m ≤ l.length →
    (∀ x ∈ l.take m, x ≠ 0) → m ≤ (l.takeWhile (fun c => c != 0)).length := by
  induction l with
  | nil => intro m hm _; simpa using hm
  | cons x xs ih =>
    intro m hm h
    cases m with
    | zero => exact Nat.zero_le _
    | succ k =>
      have hx : x ≠ 0 := h x (by simp)
      rw [List.takeWhile_cons, if_pos (by simpa using hx)]
      have := ih k (by simpa using hm) (fun y hy => h y (by simp [hy]))
      simp only [List.length_cons]
      omega

theorem ctor_from_eq (SIZE OSIZE : Nat) (g src : List Nat) (h1 : 1 ≤ SIZE) (h255 : SIZE ≤ 255)
    (hg : g.length = SIZE) (hinv : Inv OSIZE src)
    (hnz : ∀ x ∈ (content OSIZE src).take (min (size OSIZE src) (SIZE - 1)), x ≠ 0)
    (hm : SIZE - 1 - min (size OSIZE src) (SIZE - 1) ≤ 127) :
    ∃ d, ctor_from SIZE g OSIZE src = some d ∧
      size SIZE d = min (size OSIZE src) (SIZE - 1) ∧
      content SIZE d = (content OSIZE src).take (min (size OSIZE src) (SIZE - 1)) := by
  obtain ⟨hlen, hsz, _⟩ := Inv_facts hinv
  unfold MAX_CHARS at hsz
  have hS : size OSIZE src ≤ src.length := by omega
  have hLle : ((src.take (size OSIZE src)).takeWhile (fun c => c != 0)).length
      ≤ size OSIZE src := by
    calc _ ≤ (src.take (size OSIZE src)).length := length_takeWhile_le_length _ _
      _ ≤ size OSIZE src := List.length_take_le _ _
  have hLge : min (size OSIZE src) (SIZE - 1)
      ≤ ((src.take (size OSIZE src)).takeWhile (fun c => c != 0)).length :=
    le_length_takeWhile _ _ (by rw [List.length_take]; omega) hnz
  have hL : min (((src.take (size OSIZE src)).takeWhile (fun c => c != 0)).length) (SIZE - 1)
      = min (size OSIZE src) (SIZE - 1) := by omega
  obtain ⟨d, e, s, t, c⟩ := ctor_eq SIZE g src (size OSIZE src) h1 h255 hg hS
    (by rw [hL]; exact hm)
  rw [hL] at s t
  refine ⟨d, e, s, ?_⟩
  rw [c, t]
  unfold content
  rw [List.take_take]
  congr 1
  omega

/-- C19 (amended): for a source buffer src : Str<OSIZE>, Str<SIZE>(src) returns a buffer with size() = min(src.size(), SIZE - 1) whose content is the first min(src.size(), SIZE - 1) characters of src's content in two cases: when OSIZE = SIZE, where the copy constructor copies the storage of src whatever its content holds, and when OSIZE differs from SIZE, those first min(src.size(), SIZE - 1) characters hold no terminator byte and the new marker SIZE - 1 - min(src.size(), SIZE - 1) is at most 127 -/
theorem C19_ctor_from_str (SIZE OSIZE : Nat) (g src : List Nat)
    (h1 : 1 ≤ SIZE) (h255 : SIZE ≤ 255) (hg : g.length = SIZE) (hinv : Inv OSIZE src) :
    (OSIZE = SIZE →
      ctor_copy SIZE g OSIZE src = some src ∧
        size SIZE src = min (size OSIZE src) (SIZE - 1) ∧
        content SIZE src = (content OSIZE src).take (min (size OSIZE src) (SIZE - 1))) ∧
    (OSIZE ≠ SIZE →
      (∀ x ∈ (content OSIZE src).take (min (size OSIZE src) (SIZE - 1)), x ≠ 0) →
      SIZE - 1 - min (size OSIZE src) (SIZE - 1) ≤ 127 →
      ∃ d, ctor_copy SIZE g OSIZE src = some d ∧
        size SIZE d = min (size OSIZE src) (SIZE - 1) ∧
        content SIZE d = (content OSIZE src).take (min (size OSIZE src) (SIZE - 1))) := by
  constructor
  · intro hS
    subst hS
    have hsz := hinv.2.1
    unfold capacity MAX_CHARS at hsz
    refine ⟨by unfold ctor_copy; rw [if_pos rfl], by omega, ?_⟩
    rw [Nat.min_eq_left hsz, ← content_length hinv, List.take_length]
  · intro hS hnz hm
    unfold ctor_copy
    rw [if_neg hS]
    exact ctor_from_eq SIZE OSIZE g src h1 h255 hg hinv hnz hm

theorem C19_witness :
    (ctor_copy 3 [170, 170, 170] 3 [105, 110, 0] = some [105, 110, 0] ∧
      size 3 [105, 110, 0] = min (size 3 [105, 110, 0]) (3 - 1) ∧
      content 3 [105, 110, 0] = (content 3 [105, 110, 0]).take
        (min (size 3 [105, 110, 0]) (3 - 1))) ∧
    (∃ d, ctor_copy 3 [170, 170, 170] 6 [105, 110, 112, 117, 116, 0] = some d ∧
      size 3 d = min (size 6 [105, 110, 112, 117, 116, 0]) (3 - 1) ∧
      content 3 d = (content 6 [105, 110, 112, 117, 116, 0]).take
        (min (size 6 [105, 110, 112, 117, 116, 0]) (3 - 1))) ∧
    (∃ d, ctor_copy 3 [170, 170, 170] 6 [105, 110, 0, 117, 116, 0] = some d ∧
      size 3 d = min (size 6 [105, 110, 0, 117, 116, 0]) (3 - 1) ∧
      content 3 d = (content 6 [105, 110, 0, 117, 116, 0]).take
        (min (size 6 [105, 110, 0, 117, 116, 0]) (3 - 1))) :=
  ⟨(C19_ctor_from_str 3 3 [170, 170, 170] [105, 110, 0] (by decide) (by decide)
      (by decide) ⟨by decide, by decide, by decide⟩).1 rfl,
    (C19_ctor_from_str 3 6 [170, 170, 170] [105, 110, 112, 117, 116, 0] (by decide) (by decide)
      (by decide) ⟨by decide, by decide, by decide⟩).2 (by decide) (by decide) (by decide),
    (C19_ctor_from_str 3 6 [170, 170, 170] [105, 110, 0, 117, 116, 0] (by decide) (by decide)
      (by decide) ⟨by decide, by decide, by decide⟩).2 (by decide) (by decide) (by decide)⟩

/-- The marker condition of the conversion between capacities is needed:
Str<200>(src) for the Str<5> src holding "ab" stores the marker 197, reads `size()` back
as 258 and writes its terminator outside the storage (the defect of C10). -/
theorem ctor_copy_marker_sign_extended :
    Inv 5 [97, 98, 0, 170, 2] ∧
      (∀ x ∈ (content 5 [97, 98, 0, 170, 2]).take (min (size 5 [97, 98, 0, 170, 2]) (200 - 1)),
        x ≠ 0) ∧
      ¬ (200 - 1 - min (size 5 [97, 98, 0, 170, 2]) (200 - 1) ≤ 127) ∧
      size 200 ([97, 98] ++ List.replicate 197 170 ++ [197]) = 258 ∧
      ctor_copy 200 (List.replicate 200 170) 5 [97, 98, 0, 170, 2] = none :=
  ⟨⟨by decide, by decide, by decide⟩, by decide, by decide, by decide, by decide⟩

/-- C19 counterexample: the Str<5> obtained by pushing 'a', 0, 'b' has size() 3 and content 'a', 0, 'b'; Str<10> constructed from it scans for a terminator, stops after 'a' and has size() 1, not min(3, 9) = 3 -/
theorem C19_counterexample_content_with_terminator :
    (ctor_default 5 [170, 170, 170, 170, 170]).bind (push_back_all 5 [97, 0, 98])
        = some [97, 0, 98, 0, 1] ∧
      Inv 5 [97, 0, 98, 0, 1] ∧ size 5 [97, 0, 98, 0, 1] = 3 ∧
      content 5 [97, 0, 98, 0, 1] = [97, 0, 98] ∧
      ctor_copy 10 [170, 170, 170, 170, 170, 170, 170, 170, 170, 170] 5 [97, 0, 98, 0, 1]
        = some [97, 0, 170, 170, 170, 170, 170, 170, 170, 8] ∧
      size 10 [97, 0, 170, 170, 170, 170, 170, 170, 170, 8] = 1 ∧
      min (size 5 [97, 0, 98, 0, 1]) (10 - 1) = 3 ∧
      content 10 [97, 0, 170, 170, 170, 170, 170, 170, 170, 8] = [97] :=
  ⟨by decide, ⟨by decide, by decide, by decide⟩, by decide, by decide, by decide, by decide,
    by decide, by decide⟩

theorem erase_parts (SIZE index count : Nat) (d : List Nat) :
    erase SIZE index count d
      = (memmove d (erase_erase_point SIZE index d)
          (addSz (erase_erase_point SIZE index d) (erase_erase_size SIZE index count d))
          (subSz (size SIZE d) index)).bind
        fun d1 => modify_size SIZE (to_int8 (negSz (erase_erase_size SIZE index count d))) d1 :=
  rfl

/-- C22: insert(1, "XY", 2) on the Str<5> holding "abc" moves two bytes to [3, 5) and so writes index 4 = SIZE - 1, the marker byte, before size() is read again; insert(2, "abc", 3) on the Str<10> holding "12345678" moves six bytes to [5, 11) and so writes index 10, past the 10-byte storage, and the call is undefined -/
theorem C22_insert_n_writes_marker_and_beyond :
    Inv 5 [97, 98, 99, 0, 1] ∧
      insert_n_insertion_point 5 1 [97, 98, 99, 0, 1] = 1 ∧
      insert_n_insertion_size 5 1 2 [97, 98, 99, 0, 1] = 2 ∧
      insert_n_move_size 5 1 2 [97, 98, 99, 0, 1] = 2 ∧
      insert_n_writes 5 1 2 [97, 98, 99, 0, 1] 4 = true ∧ ¬ (4 < 5 - 1) ∧
      memmove [97, 98, 99, 0, 1] 3 1 2 = some [97, 98, 99, 98, 99] ∧
      available 5 [97, 98, 99, 98, 99] = 99 ∧
      Inv 10 [49, 50, 51, 52, 53, 54, 55, 56, 0, 1] ∧
      insert_n_insertion_point 10 2 [49, 50, 51, 52, 53, 54, 55, 56, 0, 1] = 2 ∧
      insert_n_insertion_size 10 2 3 [49, 50, 51, 52, 53, 54, 55, 56, 0, 1] = 3 ∧
      insert_n_move_size 10 2 3 [49, 50, 51, 52, 53, 54, 55, 56, 0, 1] = 6 ∧
      insert_n_writes 10 2 3 [49, 50, 51, 52, 53, 54, 55, 56, 0, 1] 10 = true ∧ ¬ (10 < 10) ∧
      insert_n 10 2 [97, 98, 99] 3 [49, 50, 51, 52, 53, 54, 55, 56, 0, 1] = none :=
  ⟨⟨by decide, by decide, by decide⟩, by decide, by decide, by decide, by decide, by decide,
    by decide, by decide, ⟨by decide, by decide, by decide⟩, by decide, by decide, by decide,
    by decide, by decide, by decide⟩

/-- Where the inserted amount fits behind the content (`size() + insertion_size <=
MAX_CHARS`) every index written by the move and the copy is below `SIZE - 1` (the part of
C22 that the code satisfies). -/
theorem insert_n_writes_lt (SIZE index count : Nat) (d : List Nat) (j : Nat)
    (h255 : SIZE ≤ 255) (hinv : Inv SIZE d)
    (hfit : size SIZE d + min count (SIZE - 1 - min index (size SIZE d)) ≤ SIZE - 1)
    (hw : insert_n_writes SIZE index count d j = true) : j < SIZE - 1 := by
  obtain ⟨hlen, hsz, _⟩ := Inv_facts hinv
  have hM : MAX_CHARS SIZE = SIZE - 1 := rfl
  have hp : insert_n_insertion_point SIZE index d = min index (size SIZE d) := by
    unfold insert_n_insertion_point; rw [minimum_eq_min]
  have his : insert_n_insertion_size SIZE index count d
      = min count (SIZE - 1 - min index (size SIZE d)) := by
    unfold insert_n_insertion_size
    rw [hp, minimum_eq_min, subSz_eq _ _ (by omega) (by omega), hM]
  have hms : insert_n_move_size SIZE index count d = size SIZE d - min index (size SIZE d) := by
    unfold insert_n_move_size
    rw [hp, his, subSz_eq _ _ (by omega) (by omega), addSz_eq _ _ (by omega),
      if_neg (by omega)]
  unfold insert_n_writes at hw
  rw [hp, his, hms, addSz_eq _ _ (by omega)] at hw
  simp only [Bool.or_eq_true, Bool.and_eq_true, decide_eq_true_eq] at hw
  omega

theorem insert_n_writes_lt_witness : 5 < 10 - 1 :=
  insert_n_writes_lt 10 4 2 [49, 50, 51, 52, 53, 54, 55, 0, 170, 2] 5 (by decide)
    ⟨by decide, by decide, by decide⟩ (by decide) (by decide)

/-- C23: erase(1, 99) on the full Str<11> holding "0123456789" (the call of the test) moves size() - index = 9 bytes from position 1 + 9 = 10, so it reads the indices 10 .. 18; 11 .. 18 lie outside the 11-byte storage and the call is undefined -/
theorem C23_erase_reads_outside_storage :
    Inv 11 [48, 49, 50, 51, 52, 53, 54, 55, 56, 57, 0] ∧
      1 ≤ size 11 [48, 49, 50, 51, 52, 53, 54, 55, 56, 57, 0] ∧
      erase_erase_point 11 1 [48, 49, 50, 51, 52, 53, 54, 55, 56, 57, 0] = 1 ∧
      erase_erase_size 11 1 99 [48, 49, 50, 51, 52, 53, 54, 55, 56, 57, 0] = 9 ∧
      erase_reads 11 1 99 [48, 49, 50, 51, 52, 53, 54, 55, 56, 57, 0] 11 = true ∧
      erase_reads 11 1 99 [48, 49, 50, 51, 52, 53, 54, 55, 56, 57, 0] 18 = true ∧
      ¬ (11 < 11) ∧ ¬ (18 < 11) ∧
      erase 11 1 99 [48, 49, 50, 51, 52, 53, 54, 55, 56, 57, 0] = none :=
  ⟨⟨by decide, by decide, by decide⟩, by decide, by decide, by decide, by decide, by decide,
    by decide, by decide, by decide⟩

/-- An erase inside the content whose move stays inside the storage
(`size() + erase_size <= SIZE`) reads and writes only indices below `SIZE`, and its writes
stay below `size()` (the part of C23 that the code satisfies). -/
theorem erase_accesses_lt (SIZE i count : Nat) (d : List Nat) (j : Nat)
    (h255 : SIZE ≤ 255) (hinv : Inv SIZE d) (hi : i ≤ size SIZE d)
    (hin : size SIZE d + min count (size SIZE d - i) ≤ SIZE)
    (ha : erase_reads SIZE i count d j = true ∨ erase_writes SIZE i d j = true) :
    j < SIZE := by
  obtain ⟨hlen, hsz, _⟩ := Inv_facts hinv
  have hM : MAX_CHARS SIZE = SIZE - 1 := rfl
  have hp : erase_erase_point SIZE i d = i := by
    unfold erase_erase_point; rw [minimum_eq_min]; omega
  have hsub : subSz (size SIZE d) i = size SIZE d - i := subSz_eq _ _ hi (by omega)
  have hes : erase_erase_size SIZE i count d = min count (size SIZE d - i) := by
    unfold erase_erase_size; rw [hsub, minimum_eq_min]
  unfold erase_reads erase_writes at ha
  rw [hp, hes, hsub, addSz_eq _ _ (by omega)] at ha
  simp only [Bool.and_eq_true, decide_eq_true_eq] at ha
  omega

theorem erase_accesses_lt_witness : 7 < 11 :=
  erase_accesses_lt 11 0 3 [48, 49, 52, 53, 54, 55, 56, 57, 0, 57, 2] 7 (by decide)
    ⟨by decide, by decide, by decide⟩ (by decide) (by decide) (Or.inr (by decide))

/-- For SIZE <= 255, k <= len = size() and a new marker SIZE - 1 - (len - k) of at most 127,
the update modify_size(-k) of erase computes len - k: the size_t value -k narrowed to
int8_t is -k for k <= 128 and 256 - k above, after the size_t addition and the narrowing
to uint8_t the new size is exactly len - k, and modify_size returns with that size (the
part of C24 that the code satisfies; the arithmetic itself never needs the marker
condition). -/
theorem modify_size_neg_eq (SIZE k : Nat) (d : List Nat)
    (h1 : 1 ≤ SIZE) (h255 : SIZE ≤ 255) (hinv : Inv SIZE d) (hk : k ≤ size SIZE d)
    (hm : SIZE - 1 - (size SIZE d - k) ≤ 127) :
    to_int8 (negSz k) = (if k ≤ 128 then -(k : Int) else 256 - (k : Int)) ∧
      to_uint8 (addSz (size SIZE d) (int_to_size_t (to_int8 (negSz k)))) = size SIZE d - k ∧
      ∃ d', modify_size SIZE (to_int8 (negSz k)) d = some d' ∧
        size SIZE d' = size SIZE d - k ∧ memRead d' (size SIZE d - k) = some 0 ∧
        available SIZE d' = SIZE - 1 - (size SIZE d - k) := by
  obtain ⟨hlen, hsz, _⟩ := Inv_facts hinv
  have hM : MAX_CHARS SIZE = SIZE - 1 := rfl
  have har := modify_size_neg_arith (size SIZE d) k hk (by omega)
  have hle : size SIZE d - k ≤ MAX_CHARS SIZE := by omega
  have hm' : MAX_CHARS SIZE - (size SIZE d - k) ≤ 127 := hm
  have hms : modify_size SIZE (to_int8 (negSz k)) d
      = some ((d.set (MAX_CHARS SIZE) (MAX_CHARS SIZE - (size SIZE d - k))).set
          (size SIZE d - k) 0) := by
    unfold modify_size
    rw [set_size_unsafe_to_uint8, har]
    exact set_size_unsafe_eq h1 h255 hlen hle hm'
  have hsize := @size_set_size SIZE (size SIZE d - k) d h1 h255 hlen hle hm'
  have hinv' := Inv_modify_size h1 h255 hlen hms
  have hterm := hinv'.2.2
  rw [hsize] at hterm
  refine ⟨?_, har, _, hms, hsize, hterm, ?_⟩
  · unfold to_int8 negSz subSz SIZE_T_RANGE
    split <;> split <;> omega
  · rw [available_set_size h1 hlen hle hm', hM]

theorem modify_size_neg_eq_witness :
    to_int8 (negSz 3) = (if 3 ≤ 128 then -((3 : Nat) : Int) else 256 - ((3 : Nat) : Int)) ∧
      to_uint8 (addSz (size 11 [48, 49, 52, 53, 54, 55, 56, 57, 0, 57, 2])
        (int_to_size_t (to_int8 (negSz 3))))
        = size 11 [48, 49, 52, 53, 54, 55, 56, 57, 0, 57, 2] - 3 ∧
      ∃ d', modify_size 11 (to_int8 (negSz 3)) [48, 49, 52, 53, 54, 55, 56, 57, 0, 57, 2]
          = some d' ∧
        size 11 d' = size 11 [48, 49, 52, 53, 54, 55, 56, 57, 0, 57, 2] - 3 ∧
        memRead d' (size 11 [48, 49, 52, 53, 54, 55, 56, 57, 0, 57, 2] - 3) = some 0 ∧
        available 11 d' = 11 - 1 - (size 11 [48, 49, 52, 53, 54, 55, 56, 57, 0, 57, 2] - 3) :=
  modify_size_neg_eq 11 3 [48, 49, 52, 53, 54, 55, 56, 57, 0, 57, 2] (by decide) (by decide)
    ⟨by decide, by decide, by decide⟩ (by decide) (by decide)

/-- C24: on the full Str<255> (len 254) the update modify_size(-200) narrows the size_t value -200 to the int8_t 56, adds it to size() and narrows the sum to the uint8_t 54 = len - k, so the arithmetic is right; but set_size_unsafe(54) stores the marker 200 = 254 - 54, which available() reads back through the signed char as -56, so the new size() is 254 + 56 = 310 instead of 54 and the terminator is written to index 310, outside the storage: the update has no defined result -/
theorem C24_modify_size_marker_sign_extended :
    Inv 255 (List.replicate 254 65 ++ [0]) ∧ size 255 (List.replicate 254 65 ++ [0]) = 254 ∧
      200 ≤ size 255 (List.replicate 254 65 ++ [0]) ∧
      to_int8 (negSz 200) = 56 ∧
      to_uint8 (addSz (size 255 (List.replicate 254 65 ++ [0]))
        (int_to_size_t (to_int8 (negSz 200)))) = 254 - 200 ∧
      memWrite (List.replicate 254 65 ++ [0]) (MAX_CHARS 255)
          (subSz (MAX_CHARS 255) (to_uint8 54) % 256)
        = some (List.replicate 254 65 ++ [200]) ∧
      to_int8 200 = -56 ∧
      size 255 (List.replicate 254 65 ++ [200]) = 310 ∧
      memWrite (List.replicate 254 65 ++ [200]) 310 0 = none ∧
      modify_size 255 (to_int8 (negSz 200)) (List.replicate 254 65 ++ [0]) = none :=
  ⟨⟨by decide, by decide, by decide⟩, by decide, by decide, by decide, by decide, by decide,
    by decide, by decide, by decide, by decide⟩

/-- C25: insert(5, 2, 'X') on the Str<10> holding "ab" (index beyond the length) writes the two characters at 5 and 6 and sets size() to 4: the content becomes 'a', 'b', the old terminator 0 and a stale byte, so it contains a terminator and c_str() still has length 2, not size() = 4 -/
theorem C25_insert_beyond_length_exposes_terminator :
    Inv 10 [97, 98, 0, 170, 170, 170, 170, 170, 170, 7] ∧
      (∀ x ∈ content 10 [97, 98, 0, 170, 170, 170, 170, 170, 170, 7], x ≠ 0) ∧
      insert 10 5 2 88 [97, 98, 0, 170, 170, 170, 170, 170, 170, 7]
        = some [97, 98, 0, 170, 0, 88, 88, 170, 170, 5] ∧
      size 10 [97, 98, 0, 170, 0, 88, 88, 170, 170, 5] = 4 ∧
      content 10 [97, 98, 0, 170, 0, 88, 88, 170, 170, 5] = [97, 98, 0, 170] ∧
      0 ∈ content 10 [97, 98, 0, 170, 0, 88, 88, 170, 170, 5] ∧
      ([97, 98, 0, 170, 0, 88, 88, 170, 170, 5].takeWhile (fun c => c != 0)).length = 2 :=
  ⟨⟨by decide, by decide, by decide⟩, by decide, by decide, by decide, by decide, by decide,
    by decide⟩

/-- For an index inside the content (`index <= size()`) and a count that does not wrap,
the fill insert keeps a terminator-free content terminator-free, and `c_str()` has length
`size()` (the part of C25 that the code satisfies). -/
theorem insert_keeps_no_terminator (SIZE : Nat) (d : List Nat) (p count c : Nat)
    (h1 : 1 ≤ SIZE) (h255 : SIZE ≤ 255) (hinv : Inv SIZE d) (hp : p ≤ size SIZE d)
    (hc : 1 ≤ count) (hno : size SIZE d + count < 2 ^ 64)
    (hnz : ∀ x ∈ content SIZE d, x ≠ 0) (hfill : c ≠ 0) :
    ∃ d', insert SIZE p count c d = some d' ∧ (∀ x ∈ content SIZE d', x ≠ 0) ∧
      (d'.takeWhile (fun b => b != 0)).length = size SIZE d' := by
  obtain ⟨d', e, s, k⟩ := insert_eq h1 h255 hinv hp hc hno
  have hinv' := Inv_insert h1 h255 hinv.1 e
  have hnz' : ∀ x ∈ content SIZE d', x ≠ 0 := by
    intro x hx
    rw [k] at hx
    have hx2 := List.mem_of_mem_take hx
    rw [List.mem_append, List.mem_append] at hx2
    rcases hx2 with (h | h) | h
    · exact hnz x (List.mem_of_mem_take h)
    · rw [(List.mem_replicate.mp h).2]; exact hfill
    · exact hnz x (List.mem_of_mem_drop h)
  refine ⟨d', e, hnz', ?_⟩
  have htw := takeWhile_of_terminator d' (size SIZE d') hinv'.2.2 hnz'
  rw [htw]
  exact content_length hinv'

theorem insert_keeps_no_terminator_witness :
    ∃ d', insert 5 0 1 48 [49, 50, 51, 52, 0] = some d' ∧ (∀ x ∈ content 5 d', x ≠ 0) ∧
      (d'.takeWhile (fun b => b != 0)).length = size 5 d' :=
  insert_keeps_no_terminator 5 [49, 50, 51, 52, 0] 0 1 48 (by decide) (by decide)
    ⟨by decide, by decide, by decide⟩ (by decide) (by decide) (by decide) (by decide)
    (by decide)

end Str

end lil
